import Mathlib

/-!
# Maxine native substrate: thread registry and remote introspection

A shallow embedding of

* `Native/tele/teleProcess.c`  (`isTLAForStackPointer`, `teleProcess_findTLA`,
  `teleProcess_jniGatherThread`, `teleProcess_read`, `teleProcess_write`),
* `Native/substrate/threads.c` (`thread_create`, `thread_attachCurrent`,
  `thread_detachCurrent`),
* `Native/substrate/image.h`   (`image_read_value`, `image_write_value`),
* `Native/share/condition.c`   (`condition_wait`, `compute_abstime`, `condition_timedWait`),

followed by the theorems that settle the specification's statements about them.

Conventions.  An `Address`, `Size` or `Word` of the C code is a natural number; where the
C code adds two of them the sum is reduced modulo `wordMod` (`_LP64`: 64 bit words).  A
`jint` is an integer in `[-2^31, 2^31)`.  Memory is read and written one word at a time.
-/

namespace Maxine

/-! ## Machine words -/

/-- An `Address` (`word.h`): an unsigned machine word. -/
abbrev Address := Nat

/-- The size in bytes of a machine word, `sizeof(Address)` under `_LP64`. -/
def wordSize : Nat := 8

/-- The number of values of a machine word. -/
def wordMod : Nat := 2 ^ 64

/-- The C conversion `(jint) x` of an unsigned machine word: keep the low 32 bits and read
them as a two's complement number. -/
def toJint (x : Nat) : Int :=
  if x % 2 ^ 32 < 2 ^ 31 then ((x % 2 ^ 32 : Nat) : Int) else ((x % 2 ^ 32 : Nat) : Int) - 2 ^ 32

/-- The result of a `jint` computation brought back into `[-2^31, 2^31)`. -/
def wrapJint (i : Int) : Int :=
  (i + 2 ^ 31) % 2 ^ 32 - 2 ^ 31

/-! ## The remote side: `teleProcess.c` -/

/-- The constants of the boot image header (`image.h`) that name the slots of a thread
locals area, with the size of such an area counted in words (`tlaSize() / sizeof(Address)`). -/
structure TlaLayout where
  tlaWords : Nat
  NATIVE_THREAD_LOCALS : Nat
  FORWARD_LINK : Nat
  BACKWARD_LINK : Nat
  ID : Nat
  JNI_ENV : Nat
deriving DecidableEq, Repr

/-- Modelled from the spec: the native-info record `NativeThreadLocalsStruct`, whose
declaration (`threadLocals.h`) is not among the sources: stack base address, stack size, OS
thread handle, pointer and size of the whole locals block, guard ("yellow") zone address. -/
structure NativeThreadLocalsStruct where
  stackBase : Nat
  stackSize : Nat
  handle : Nat
  tlBlock : Nat
  tlBlockSize : Nat
  stackYellowZone : Nat
deriving DecidableEq, Repr

/-- The memory of the traced process: the word stored at each address. -/
abbrev RemoteMemory := Address → Nat

/-- Modelled from the spec: `readProcessMemory(ph, src, dst, size)`, the copy-memory
primitive of the process handle, for a `size` of `n` words: the words at `src`,
`src + wordSize`, ... in the traced process. -/
def readProcessMemory (mem : RemoteMemory) (src : Address) (n : Nat) : List Nat :=
  (List.range n).map (fun i => mem (src + i * wordSize))

/-- The copy of a native-info record read with
`readProcessMemory(ph, ntl, ntlCopy, sizeof(NativeThreadLocalsStruct))`. -/
def readNativeThreadLocals (mem : RemoteMemory) (ntl : Address) : NativeThreadLocalsStruct :=
  { stackBase := mem ntl
    stackSize := mem (ntl + wordSize)
    handle := mem (ntl + 2 * wordSize)
    tlBlock := mem (ntl + 3 * wordSize)
    tlBlockSize := mem (ntl + 4 * wordSize)
    stackYellowZone := mem (ntl + 5 * wordSize) }

/-- The macro `tla_load(type, tla, name)` on a local copy: the word in slot `name`. -/
def tla_load (tla : List Nat) (name : Nat) : Nat :=
  tla.getD name 0

/-- The macro `tla_store(tla, name, value)` on a local copy. -/
def tla_store (tla : List Nat) (name : Nat) (value : Nat) : List Nat :=
  tla.set name value

/-- The two scratch buffers `tlaCopy` and `ntlCopy` of `teleProcess_findTLA`. -/
structure Scratch where
  tlaCopy : List Nat
  ntlCopy : NativeThreadLocalsStruct
deriving DecidableEq, Repr

/-- The function `isTLAForStackPointer` of `teleProcess.c`: copies the thread locals area
at `tla` and the native-info record it refers to, redirects the copy's
`NATIVE_THREAD_LOCALS` slot to `ntlCopy` (a local address), and tests the stack pointer
against the copied stack bounds.  The scratch buffers are overwritten whatever the answer. -/
def isTLAForStackPointer (L : TlaLayout) (mem : RemoteMemory) (stackPointer tla : Address)
    (ntlCopy : Address) : Bool × Scratch :=
  let tlaCopy0 := readProcessMemory mem tla L.tlaWords
  let ntl := tla_load tlaCopy0 L.NATIVE_THREAD_LOCALS
  let ntlCopy1 := readNativeThreadLocals mem ntl
  let tlaCopy1 := tla_store tlaCopy0 L.NATIVE_THREAD_LOCALS ntlCopy
  let stackBase := ntlCopy1.stackBase
  let stackSize := ntlCopy1.stackSize
  (decide (stackBase ≤ stackPointer) && decide (stackPointer < (stackBase + stackSize) % wordMod),
    { tlaCopy := tlaCopy1, ntlCopy := ntlCopy1 })

/-- The `while (tla != 0)` loop of `teleProcess_findTLA`, run for at most `fuel` probes.
`none`: the fuel ran out; `some (true, s)`: the loop returned `tlaCopy`;
`some (false, s)`: the loop ended at a null link. -/
def findLoop (L : TlaLayout) (mem : RemoteMemory) (stackPointer ntlCopy : Address) :
    Nat → Address → Scratch → Option (Bool × Scratch)
  | 0, _, _ => none
  | fuel + 1, tla, s =>
    if tla = 0 then some (false, s)
    else
      let r := isTLAForStackPointer L mem stackPointer tla ntlCopy
      if r.1 then some (true, r.2)
      else findLoop L mem stackPointer ntlCopy fuel (tla_load r.2.tlaCopy L.FORWARD_LINK) r.2

/-- The function `teleProcess_findTLA` of `teleProcess.c`.  `tlaCopy` and `ntlCopy` are the
local addresses of the two scratch buffers; the result is the returned pointer (`tlaCopy`
or `0`) with the final contents of the buffers, or `none` when `fuel` probes do not end
the walk of the list. -/
def teleProcess_findTLA (fuel : Nat) (L : TlaLayout) (mem : RemoteMemory)
    (tlaList primordialTLA stackPointer tlaCopy ntlCopy : Address) : Option (Address × Scratch) :=
  let s0 : Scratch := { tlaCopy := List.replicate L.tlaWords 0, ntlCopy := ⟨0, 0, 0, 0, 0, 0⟩ }
  let walk := if tlaList ≠ 0 then findLoop L mem stackPointer ntlCopy fuel tlaList s0
    else some (false, s0)
  match walk with
  | none => none
  | some (true, s) => some (tlaCopy, s)
  | some (false, s) =>
    if primordialTLA ≠ 0 then
      let r := isTLAForStackPointer L mem stackPointer primordialTLA ntlCopy
      if r.1 then some (tlaCopy, r.2) else some (0, r.2)
    else some (0, s)

/-! ## The local side: `threads.c` -/

/-- The JNI status `JNI_OK` (`jni.h`). -/
def JNI_OK : Int := 0

/-- The JNI status `JNI_EDETACHED` (`jni.h`). -/
def JNI_EDETACHED : Int := -2

/-- The slots of a thread locals area that `threads.c` reads and writes, named as in the
boot image header (`image.h`). -/
structure ThreadLocals where
  ID : Int
  FORWARD_LINK : Address
  BACKWARD_LINK : Address
deriving DecidableEq, Repr

/-- The names of the two link slots. -/
inductive LinkName where
  | FORWARD_LINK
  | BACKWARD_LINK
deriving DecidableEq, Repr

/-- The thread locals area with one link slot replaced. -/
def ThreadLocals.setLink (t : ThreadLocals) : LinkName → Address → ThreadLocals
  | .FORWARD_LINK, v => { t with FORWARD_LINK := v }
  | .BACKWARD_LINK, v => { t with BACKWARD_LINK := v }

/-- The operations of `thread_attachCurrent` and `thread_detachCurrent` that leave the
function: allocation and release of a thread locals block, the global lock, the upcall
to `VmThread.attach` (with the native thread, the daemon flag and the thread locals it is
given) and the one message logged. -/
inductive Event where
  | threadLocalsBlock_create (id : Int) (tlBlock : Address)
  | threadLocalsBlock_destroy (tlBlock : Address)
  | mutex_enter
  | mutex_exit
  | vmThreadAttach (nativeThread : Address) (daemon : Bool) (tl : Address)
  | log_cannot_attach
deriving DecidableEq, Repr

/-- The memory of the VM as `threads.c` sees it: the word of the boot image at
`threadLocalsListHeadOffset`, the allocated thread locals areas by address (address `0`
and every other address without an area are not mapped), the thread locals block of each
native thread (`0`: none), and the operations performed so far, latest first. -/
structure VM where
  threadLocalsListHead : Address
  heap : Address → Option ThreadLocals
  current : Address → Address
  trace : List Event

/-- The macro `image_read_value(ThreadLocals, threadLocalsListHeadOffset)` of `image.h`. -/
def image_read_value (st : VM) : Address :=
  st.threadLocalsListHead

/-- The macro `image_write_value(ThreadLocals, threadLocalsListHeadOffset, value)` of
`image.h`. -/
def image_write_value (st : VM) (value : Address) : VM :=
  { st with threadLocalsListHead := value }

/-- Modelled from the spec: the macro `THREAD_LOCALS_FROM_TLBLOCK` of `threadLocals.h`,
which is not among the sources.  The spec has one metadata block per thread, so the
thread locals of a block are found at the address of the block. -/
def THREAD_LOCALS_FROM_TLBLOCK (tlBlock : Address) : Address :=
  tlBlock

/-- Modelled from the spec: `threadLocalsBlock_current()` of `threadLocals.c`, which is not
among the sources: the calling thread's block, `0` when it has none. -/
def threadLocalsBlock_current (st : VM) (nativeThread : Address) : Address :=
  st.current nativeThread

/-- Modelled from the spec: `threadLocals_current()` of `threadLocals.c`, which is not among
the sources: the calling thread's thread locals, `0` when it has none. -/
def threadLocals_current (st : VM) (nativeThread : Address) : Address :=
  if threadLocalsBlock_current st nativeThread = 0 then 0
  else THREAD_LOCALS_FROM_TLBLOCK (threadLocalsBlock_current st nativeThread)

/-- The macro `getThreadLocalAddress(tl, JNI_ENV)`: the address of a slot. -/
def getThreadLocalAddress (L : TlaLayout) (tl : Address) : Address :=
  tl + L.JNI_ENV * wordSize

/-- Modelled from the spec: `currentJniEnv()`, declared `extern` in `thread_attachCurrent`:
the existing VM-environment handle of the calling thread. -/
def currentJniEnv (L : TlaLayout) (st : VM) (nativeThread : Address) : Address :=
  getThreadLocalAddress L (threadLocals_current st nativeThread)

/-- Modelled from the spec: `threadLocalsBlock_create(id, &refMap)` of `threadLocals.c`,
which is not among the sources: allocates the metadata block of the calling thread at
the address `tlBlock` the allocator chose, with the given id and null links, and makes it
the calling thread's current block. -/
def threadLocalsBlock_create (id : Int) (tlBlock : Address) (nativeThread : Address)
    (st : VM) : VM :=
  { st with
    heap := Function.update st.heap (THREAD_LOCALS_FROM_TLBLOCK tlBlock)
      (some { ID := id, FORWARD_LINK := 0, BACKWARD_LINK := 0 })
    current := Function.update st.current nativeThread tlBlock
    trace := Event.threadLocalsBlock_create id tlBlock :: st.trace }

/-- Modelled from the spec: the macro `setConstantThreadLocal(tl, name, value)` of
`threadLocals.h`, which is not among the sources: stores `value` in the slot `name` of the
thread locals at `tl`.  The store goes through the pointer `tl`: where no thread locals
area is mapped (the null pointer above all) it faults, which is `none`. -/
def setConstantThreadLocal (st : VM) (tl : Address) (name : LinkName) (value : Address) :
    Option VM :=
  match st.heap tl with
  | none => none
  | some t => some { st with heap := Function.update st.heap tl (some (t.setLink name value)) }

/-- One more operation on the trace. -/
def VM.emit (st : VM) (e : Event) : VM :=
  { st with trace := e :: st.trace }

/-- The temporary id of `thread_attachCurrent` (lines 280-281):
`jint handle = (jint) nativeThread; jint id = handle < 0 ? handle : -handle;`. -/
def attachTemporaryId (nativeThread : Address) : Int :=
  let handle := toJint nativeThread
  if handle < 0 then handle else wrapJint (-handle)

/-- The function `thread_attachCurrent` of `threads.c`, called by the native thread
`nativeThread` (`thread_current()`).  `tlBlock` is the address the allocator gives the new
block and `upcallResult` the status the `VmThread.attach` upcall returns.  The result is
the returned status, the value stored in `*penv` and the memory afterwards; `none` when
a store faults. -/
def thread_attachCurrent (L : TlaLayout) (nativeThread tlBlock : Address) (daemon : Bool)
    (upcallResult : Int) (st : VM) : Option (Int × Address × VM) :=
  if threadLocals_current st nativeThread ≠ 0 then
    some (JNI_OK, currentJniEnv L st nativeThread, st)
  else
    let id := attachTemporaryId nativeThread
    let st1 := threadLocalsBlock_create id tlBlock nativeThread st
    let tl := THREAD_LOCALS_FROM_TLBLOCK tlBlock
    let st2 := st1.emit Event.mutex_enter
    let threadLocalsListHead := image_read_value st2
    match setConstantThreadLocal st2 tl LinkName.FORWARD_LINK threadLocalsListHead with
    | none => none
    | some st3 =>
      match setConstantThreadLocal st3 threadLocalsListHead LinkName.BACKWARD_LINK tl with
      | none => none
      | some st4 =>
        let st5 := image_write_value st4 tl
        let st6 := (st5.emit (Event.vmThreadAttach nativeThread daemon tl)).emit Event.mutex_exit
        if upcallResult = JNI_OK then
          some (upcallResult, getThreadLocalAddress L tl, st6)
        else if upcallResult = JNI_EDETACHED then
          some (upcallResult, 0, st6.emit Event.log_cannot_attach)
        else
          some (upcallResult, 0, st6)

/-- One call of `thread_attachCurrent` as the global lock serialises it: the calling
thread, the address of its new block and the status of its upcall. -/
structure AttachCall where
  nativeThread : Address
  tlBlock : Address
  daemon : Bool
  upcallResult : Int
deriving DecidableEq, Repr

/-- The operating systems `thread_create` is written for with a thread library of its own. -/
inductive Os where
  | LINUX
  | DARWIN
  | SOLARIS
deriving DecidableEq, Repr

/-- What `thread_create` takes from its platform: the operating system, the helpers
`virtualMemory_pageAlign` and `virtualMemory_getPageSize` of `virtualMemory.c` (not among
the sources), the minimum stack size (`PTHREAD_STACK_MIN`, `thr_min_stack()`), and the
answer of the thread library to a creation request for a stack size and an argument: its
error code and the handle of the thread. -/
structure Platform where
  os : Os
  virtualMemory_pageAlign : Nat → Nat
  virtualMemory_getPageSize : Nat
  stackMin : Nat
  osCreate : Nat → Int → Int × Nat

/-- The calls `thread_create` makes to the thread library and to the log. -/
inductive OsCall where
  | log_stack_size_not_aligned (pageSize : Nat)
  | pthread_attr_init
  | pthread_attr_setstacksize (stackSize : Nat)
  | pthread_attr_setguardsize (guardSize : Nat)
  | pthread_attr_setdetachstate_joinable
  | pthread_create (stackSize : Nat) (arg : Int)
  | pthread_attr_destroy
  | thr_create (stackSize : Nat) (arg : Int)
  | log_create_failed (error : Int)
deriving DecidableEq, Repr

/-- The call is a request to the operating system for a new thread. -/
def OsCall.isThreadCreation : OsCall → Bool
  | .pthread_create _ _ => true
  | .thr_create _ _ => true
  | _ => false

/-- The function `thread_create` of `threads.c` (`os_LINUX || os_DARWIN` and `os_SOLARIS`
branches): the returned handle (`0`: failure) and the calls made, in order. -/
def thread_create (P : Platform) (id : Int) (stackSize : Nat) (_priority : Int) :
    Nat × List OsCall :=
  if P.virtualMemory_pageAlign stackSize ≠ stackSize then
    (0, [OsCall.log_stack_size_not_aligned P.virtualMemory_getPageSize])
  else
    let stackSize1 := if stackSize < P.stackMin then P.stackMin else stackSize
    let r := P.osCreate stackSize1 id
    match P.os with
    | Os.SOLARIS =>
      if r.1 ≠ 0 then
        (0, [OsCall.thr_create stackSize1 id, OsCall.log_create_failed r.1])
      else
        (r.2, [OsCall.thr_create stackSize1 id])
    | _ =>
      let calls := [OsCall.pthread_attr_init, OsCall.pthread_attr_setstacksize stackSize1,
        OsCall.pthread_attr_setguardsize P.virtualMemory_getPageSize,
        OsCall.pthread_attr_setdetachstate_joinable, OsCall.pthread_create stackSize1 id,
        OsCall.pthread_attr_destroy]
      if r.1 ≠ 0 then
        (0, calls ++ [OsCall.log_create_failed r.1])
      else
        (r.2, calls)

/-- Modelled from the spec: `virtualMemory_pageAlign` of `virtualMemory.c`, which is not
among the sources: the size rounded up to a multiple of the page size. -/
def pageAlignUp (pageSize : Nat) (size : Nat) : Nat :=
  (size + pageSize - 1) / pageSize * pageSize

/-! ## Notions of the specification -/

/-- The forward link of the thread locals area at `tla` in the traced process. -/
def remoteForwardLink (L : TlaLayout) (mem : RemoteMemory) (tla : Address) : Address :=
  mem (tla + L.FORWARD_LINK * wordSize)

/-- The native-info record of the thread locals area at `tla` in the traced process. -/
def remoteNativeInfo (L : TlaLayout) (mem : RemoteMemory) (tla : Address) :
    NativeThreadLocalsStruct :=
  readNativeThreadLocals mem (mem (tla + L.NATIVE_THREAD_LOCALS * wordSize))

/-- Following `FORWARD_LINK` from `head` visits exactly the areas of `chain`, in this
order, and then reaches null. -/
def IsTlaList (L : TlaLayout) (mem : RemoteMemory) : Address → List Address → Prop
  | head, [] => head = 0
  | head, a :: rest => head = a ∧ a ≠ 0 ∧ IsTlaList L mem (remoteForwardLink L mem a) rest

/-- The stack range `[stackBase, stackBase + stackSize)` of a native-info record, the sum
being the sum of the two numbers. -/
def inStackRange (ntl : NativeThreadLocalsStruct) (p : Nat) : Prop :=
  ntl.stackBase ≤ p ∧ p < ntl.stackBase + ntl.stackSize

/-- The stack range `[stackBase, stackBase + stackSize)` of a record whose upper bound
`stackBase + stackSize` is itself a machine word. -/
def stackContains (ntl : NativeThreadLocalsStruct) (p : Nat) : Prop :=
  inStackRange ntl p ∧ ntl.stackBase + ntl.stackSize < wordMod

/-- The two scratch buffers hold the copy of the area at `tla`: every slot of `tlaCopy` is
the slot of the area, but for `NATIVE_THREAD_LOCALS`, which is the local address `ntlCopy`;
the record is the native-info record of the area. -/
def HoldsCopyOf (L : TlaLayout) (mem : RemoteMemory) (tla ntlCopy : Address) (s : Scratch) :
    Prop :=
  s.tlaCopy.length = L.tlaWords ∧
  (∀ i, i < L.tlaWords →
    tla_load s.tlaCopy i = if i = L.NATIVE_THREAD_LOCALS then ntlCopy else mem (tla + i * wordSize)) ∧
  s.ntlCopy = remoteNativeInfo L mem tla

/-- A layout with four slots, the native-info pointer first. -/
def exLayout : TlaLayout :=
  { tlaWords := 4, NATIVE_THREAD_LOCALS := 0, FORWARD_LINK := 1, BACKWARD_LINK := 2, ID := 3,
    JNI_ENV := 3 }

/-- The memory whose listed cells hold the listed words and every other cell 0. -/
def memoryOf (cells : List (Address × Nat)) : RemoteMemory := fun a =>
  match cells.find? (fun c => c.1 == a) with
  | some c => c.2
  | none => 0

/-- A traced process with one thread, whose 4096 byte stack is the last page of the address
space: its area is at 4096 (native-info record at 8192, no forward link). -/
def topStackMemory : RemoteMemory :=
  memoryOf [(4096, 8192), (8192, 2 ^ 64 - 4096), (8200, 4096)]

/-- A traced process with two threads and a primordial block.  The list is
`256 -> 512 -> null`; the stacks are `[4096, 8192)` and `[8192, 12288)`; the primordial
block at 768 has the range `[8192, 20480)`, which overlaps the second stack. -/
def twoThreadMemory : RemoteMemory :=
  memoryOf [(256, 1024), (264, 512), (280, 7), (512, 1280), (536, 9), (768, 1536),
    (1024, 4096), (1032, 4096), (1280, 8192), (1288, 4096), (1536, 8192), (1544, 12288)]

instance inStackRange.decidable (ntl : NativeThreadLocalsStruct) (p : Nat) :
    Decidable (inStackRange ntl p) :=
  decidable_of_iff (ntl.stackBase ≤ p ∧ p < ntl.stackBase + ntl.stackSize) Iff.rfl

instance stackContains.decidable (ntl : NativeThreadLocalsStruct) (p : Nat) :
    Decidable (stackContains ntl p) :=
  decidable_of_iff (inStackRange ntl p ∧ ntl.stackBase + ntl.stackSize < wordMod) Iff.rfl

instance IsTlaList.decidable (L : TlaLayout) (mem : RemoteMemory) :
    ∀ (head : Address) (chain : List Address), Decidable (IsTlaList L mem head chain)
  | head, [] => decidable_of_iff (head = 0) Iff.rfl
  | head, a :: rest =>
    have := IsTlaList.decidable L mem (remoteForwardLink L mem a) rest
    decidable_of_iff (head = a ∧ a ≠ 0 ∧ IsTlaList L mem (remoteForwardLink L mem a) rest) Iff.rfl

instance HoldsCopyOf.decidable (L : TlaLayout) (mem : RemoteMemory) (tla ntlCopy : Address)
    (s : Scratch) : Decidable (HoldsCopyOf L mem tla ntlCopy s) :=
  decidable_of_iff (s.tlaCopy.length = L.tlaWords ∧
    (∀ i, i < L.tlaWords →
      tla_load s.tlaCopy i
        = if i = L.NATIVE_THREAD_LOCALS then ntlCopy else mem (tla + i * wordSize)) ∧
    s.ntlCopy = remoteNativeInfo L mem tla) Iff.rfl

/-- Following `FORWARD_LINK` from `head` in the VM's own memory visits exactly the thread
locals of `chain`, in this order, and then reaches null. -/
def IsRegistryList (heap : Address → Option ThreadLocals) : Address → List Address → Prop
  | head, [] => head = 0
  | head, a :: rest =>
    head = a ∧ a ≠ 0 ∧
      match heap a with
      | some t => IsRegistryList heap t.FORWARD_LINK rest
      | none => False

/-- Every node `n` of `chain` whose `FORWARD_LINK` is a non-null node `m` has
`m.BACKWARD_LINK = n`. -/
def LinksConsistent (heap : Address → Option ThreadLocals) (chain : List Address) : Prop :=
  ∀ n ∈ chain, ∀ tn ∈ heap n, tn.FORWARD_LINK ≠ 0 →
    ∃ tm ∈ heap tn.FORWARD_LINK, tm.BACKWARD_LINK = n

/-- The registry invariant, for the list `chain` of the nodes reachable from the head: the
list from the head ends in a null reference, is acyclic, and its backward and forward
links are mutually consistent. -/
def RegistryInvariant (st : VM) (chain : List Address) : Prop :=
  IsRegistryList st.heap st.threadLocalsListHead chain ∧ chain.Nodup ∧
    LinksConsistent st.heap chain

/-- The thread locals a call allocates. -/
def AttachCall.tl (c : AttachCall) : Address :=
  THREAD_LOCALS_FROM_TLBLOCK c.tlBlock

/-- The calls are made by distinct threads none of which has a metadata block in `st`, and
each is given a fresh block: non-null, different from the blocks of the other calls and
from the nodes of `chain`. -/
def FreshCalls (st : VM) (chain : List Address) (calls : List AttachCall) : Prop :=
  (∀ c ∈ calls, threadLocals_current st c.nativeThread = 0) ∧
  (calls.map (fun c => c.nativeThread)).Nodup ∧
  (calls.map (fun c => c.tl)).Nodup ∧
  (∀ c ∈ calls, c.tl ≠ 0 ∧ c.tl ∉ chain)

/-- The VM whose registry is the metadata block 4096 of the main thread (handle 100). -/
def mainThreadVM : VM :=
  { threadLocalsListHead := 4096
    heap := fun a => if a = 4096 then some { ID := 1, FORWARD_LINK := 0, BACKWARD_LINK := 0 }
      else none
    current := fun t => if t = 100 then 4096 else 0
    trace := [] }

/-- A Linux platform with pages of 4096 bytes and a minimum stack of 16384 bytes, whose
thread library creates every thread it is asked for, with the handle 7. -/
def linuxPlatform : Platform :=
  { os := Os.LINUX, virtualMemory_pageAlign := pageAlignUp 4096,
    virtualMemory_getPageSize := 4096, stackMin := 16384, osCreate := fun _ _ => (0, 7) }

instance LinksConsistent.decidable (heap : Address → Option ThreadLocals)
    (chain : List Address) : Decidable (LinksConsistent heap chain) :=
  inferInstanceAs (Decidable (∀ n ∈ chain, ∀ tn ∈ heap n, tn.FORWARD_LINK ≠ 0 →
    ∃ tm ∈ heap tn.FORWARD_LINK, tm.BACKWARD_LINK = n))

instance FreshCalls.decidable (st : VM) (chain : List Address) (calls : List AttachCall) :
    Decidable (FreshCalls st chain calls) :=
  inferInstanceAs (Decidable ((∀ c ∈ calls, threadLocals_current st c.nativeThread = 0) ∧
    (calls.map (fun c : AttachCall => c.nativeThread)).Nodup ∧
    (calls.map (fun c : AttachCall => c.tl)).Nodup ∧
    (∀ c ∈ calls, c.tl ≠ 0 ∧ c.tl ∉ chain)))

instance IsRegistryList.decidable (heap : Address → Option ThreadLocals) :
    ∀ (head : Address) (chain : List Address), Decidable (IsRegistryList heap head chain)
  | head, [] => decidable_of_iff (head = 0) Iff.rfl
  | head, a :: rest =>
    match h : heap a with
    | some t =>
      have := IsRegistryList.decidable heap t.FORWARD_LINK rest
      decidable_of_iff (head = a ∧ a ≠ 0 ∧ IsRegistryList heap t.FORWARD_LINK rest)
        (by simp [IsRegistryList, h])
    | none => isFalse (by simp [IsRegistryList, h])

instance RegistryInvariant.decidable (st : VM) (chain : List Address) :
    Decidable (RegistryInvariant st chain) :=
  inferInstanceAs (Decidable (IsRegistryList st.heap st.threadLocalsListHead chain ∧
    chain.Nodup ∧ LinksConsistent st.heap chain))

/-! ## The condition variable: `condition.c` -/

/-- The error code `EINTR` of `errno.h`. -/
def EINTR : Int := 4

/-- The error code with which the timed wait of the thread library reports that the time
ran out: `ETIMEDOUT` of `pthread_cond_timedwait` (110 on Linux, 60 on Darwin), `ETIME` of
`cond_reltimedwait` (62 on Solaris). -/
def timedOutCode : Os → Int
  | Os.LINUX => 110
  | Os.DARWIN => 60
  | Os.SOLARIS => 62

/-- A `struct timeval` (`sys/time.h`); `time_t` and `suseconds_t` are 64 bit integers. -/
structure timeval where
  tv_sec : Int
  tv_usec : Int
deriving DecidableEq, Repr

/-- A `struct timespec` (`time.h`), also the `timestruc_t` of Solaris. -/
structure timespec where
  tv_sec : Int
  tv_nsec : Int
deriving DecidableEq, Repr

/-- The result of a computation on `long` (64 bit) brought back into `[-2^63, 2^63)`. -/
def wrapLong (i : Int) : Int :=
  (i + 2 ^ 63) % 2 ^ 64 - 2 ^ 63

/-- The C conversion of an `Unsigned8` to a `jlong`. -/
def toJlong (x : Nat) : Int :=
  wrapLong (x : Int)

/-- The calls `condition_wait` and `condition_timedWait` make to the thread library and to
the log: the wait (with the absolute deadline or the relative time it is given) and the
message for an unexpected error code. -/
inductive WaitCall where
  | pthread_cond_wait
  | pthread_cond_timedwait (abstime : timespec)
  | cond_wait
  | cond_reltimedwait (reltime : timespec)
  | log_unexpected_error (error : Int)
deriving DecidableEq, Repr

/-- The call is a wait on the condition variable. -/
def WaitCall.isWait : WaitCall → Bool
  | .log_unexpected_error _ => false
  | _ => true

/-- The wait call of `condition_wait`: `cond_wait` on Solaris, `pthread_cond_wait` on Linux
and Darwin. -/
def waitCall : Os → WaitCall
  | Os.SOLARIS => WaitCall.cond_wait
  | _ => WaitCall.pthread_cond_wait

/-- The function `condition_wait` of `condition.c` (`os_DARWIN || os_LINUX` and
`os_SOLARIS` branches).  `osWait` is the answer of the thread library to a wait: its error
code.  The result is the returned boolean and the calls made, in order. -/
def condition_wait (os : Os) (osWait : WaitCall → Int) : Bool × List WaitCall :=
  let call := waitCall os
  let error := osWait call
  if error = EINTR then (false, [call])
  else if error ≠ 0 then (false, [call, WaitCall.log_unexpected_error error])
  else (true, [call])

/-- The function `compute_abstime` of `condition.c`, with the time `now` that its
`gettimeofday` call reads. -/
def compute_abstime (now : timeval) (millis : Int) : timespec :=
  let millis0 := if millis < 0 then 0 else millis
  let seconds0 := millis0 / 1000
  let millis1 := millis0 % 1000
  let seconds := if seconds0 > 50000000 then 50000000 else seconds0
  let tv_sec := wrapLong (now.tv_sec + seconds)
  let usec := wrapLong (now.tv_usec + wrapLong (millis1 * 1000))
  if usec ≥ 1000000 then
    { tv_sec := wrapLong (tv_sec + 1), tv_nsec := wrapLong (wrapLong (usec - 1000000) * 1000) }
  else
    { tv_sec := tv_sec, tv_nsec := wrapLong (usec * 1000) }

/-- The wait call of `condition_timedWait` for a timeout above 0: on Solaris
`cond_reltimedwait` with the timeout as a relative time, on Linux and Darwin
`pthread_cond_timedwait` with the deadline that `compute_abstime` gives. -/
def timedWaitCall (os : Os) (now : timeval) (timeoutMilliSeconds : Nat) : WaitCall :=
  match os with
  | Os.SOLARIS =>
    WaitCall.cond_reltimedwait
      { tv_sec := wrapLong ((timeoutMilliSeconds / 1000 : Nat) : Int)
        tv_nsec := wrapLong (((timeoutMilliSeconds % 1000) * 1000000 : Nat) : Int) }
  | _ => WaitCall.pthread_cond_timedwait (compute_abstime now (toJlong timeoutMilliSeconds))

/-- The function `condition_timedWait` of `condition.c` (`os_DARWIN || os_LINUX` and
`os_SOLARIS` branches), for the timeout `timeoutMilliSeconds` (an `Unsigned8`), with the
time `now` read by `gettimeofday` and the answer `osWait` of the thread library. -/
def condition_timedWait (os : Os) (now : timeval) (osWait : WaitCall → Int)
    (timeoutMilliSeconds : Nat) : Bool × List WaitCall :=
  if timeoutMilliSeconds > 0 then
    let call := timedWaitCall os now timeoutMilliSeconds
    let error := osWait call
    if error = timedOutCode os then (true, [call])
    else if error = EINTR then (false, [call])
    else if error ≠ 0 then (false, [call, WaitCall.log_unexpected_error error])
    else (true, [call])
  else
    condition_wait os osWait

/-- The time of a `timespec` in nanoseconds. -/
def timespec.nanos (t : timespec) : Int :=
  t.tv_sec * 1000000000 + t.tv_nsec

/-- The time of a `timeval` in nanoseconds. -/
def timeval.nanos (t : timeval) : Int :=
  t.tv_sec * 1000000000 + t.tv_usec * 1000

/-! ## `thread_detachCurrent` -/

/-- Modelled from the spec: `threadLocalsBlock_setCurrent(tlBlock)` of `threadLocals.c`,
which is not among the sources: sets the calling thread's local metadata block pointer. -/
def threadLocalsBlock_setCurrent (tlBlock : Address) (nativeThread : Address) (st : VM) : VM :=
  { st with current := Function.update st.current nativeThread tlBlock }

/-- What `threadLocalsBlock_destroy` leaves of the registry: the head of the list and the
thread locals areas, given the block and the memory before.  The spec leaves open whether
the block is unlinked from the shared list when it is released, so this is a parameter. -/
abbrev RegistryEffect := Address → VM → Address × (Address → Option ThreadLocals)

/-- Modelled from the spec: `threadLocalsBlock_destroy(tlBlock)` of `threadLocals.c`, which
is not among the sources: releases the metadata block, whose thread locals are no longer
mapped afterwards.  What it does to the registry head and to the links of the other
thread locals (whether it unlinks the block) is the parameter `registry`. -/
def threadLocalsBlock_destroy (registry : RegistryEffect) (tlBlock : Address) (st : VM) : VM :=
  { st with
    threadLocalsListHead := (registry tlBlock st).1
    heap := Function.update (registry tlBlock st).2 (THREAD_LOCALS_FROM_TLBLOCK tlBlock) none
    trace := Event.threadLocalsBlock_destroy tlBlock :: st.trace }

/-- The function `thread_detachCurrent` of `threads.c`, called by the native thread
`nativeThread`: the returned status and the memory afterwards. -/
def thread_detachCurrent (registry : RegistryEffect) (nativeThread : Address) (st : VM) :
    Int × VM :=
  let tlBlock := threadLocalsBlock_current st nativeThread
  if tlBlock = 0 then (JNI_OK, st)
  else
    let st1 := threadLocalsBlock_setCurrent 0 nativeThread st
    let st2 := threadLocalsBlock_destroy registry tlBlock st1
    (JNI_OK, st2)

/-- One behaviour of `threadLocalsBlock_destroy` among those the spec allows: the head and
the links are left as they are. -/
def registryKept : RegistryEffect :=
  fun _ st => (st.threadLocalsListHead, st.heap)

/-- Another behaviour of `threadLocalsBlock_destroy` among those the spec allows: a block
that is the head of the list is unlinked, the head moving to its forward link. -/
def registryHeadUnlinked : RegistryEffect :=
  fun tlBlock st =>
    if st.threadLocalsListHead = THREAD_LOCALS_FROM_TLBLOCK tlBlock then
      match st.heap (THREAD_LOCALS_FROM_TLBLOCK tlBlock) with
      | some t => (t.FORWARD_LINK, st.heap)
      | none => (st.threadLocalsListHead, st.heap)
    else (st.threadLocalsListHead, st.heap)

/-- The VM of the main thread (block 4096) after the thread 200 attached with the block
8192: the list from the head is `8192 -> 4096 -> null`. -/
def twoThreadVM : VM :=
  { threadLocalsListHead := 8192
    heap := fun a =>
      if a = 8192 then some { ID := -200, FORWARD_LINK := 4096, BACKWARD_LINK := 0 }
      else if a = 4096 then some { ID := 1, FORWARD_LINK := 0, BACKWARD_LINK := 8192 }
      else none
    current := fun t => if t = 100 then 4096 else if t = 200 then 8192 else 0
    trace := [] }

/-! ## `teleProcess_jniGatherThread` -/

/-- The arguments of the `jniGatherThread` callback, after the thread list. -/
structure GatheredThread where
  id : Int
  localHandle : Int
  handle : Nat
  state : Int
  instructionPointer : Int
  stackBase : Nat
  stackSize : Nat
  tlBlock : Nat
  tlBlockSize : Nat
  tlaSize : Nat
deriving DecidableEq, Repr

/-- The word that `tla_store` writes for a `jint` value: the value converted to an
`Address`, which extends its sign. -/
def wordOfJint (v : Int) : Nat :=
  (v % 2 ^ 64).toNat

/-- The function `teleProcess_jniGatherThread` of `teleProcess.c`: the arguments it passes
to the `jniGatherThread` callback.  `localTla` and `localNtl` are the thread locals areas
and native-info records of the debugger's own memory that a non-null `tla` points to;
`noNtl` is the address of the local `noNativeThreadLocalsStruct`.  `tla_load(int, tla, ID)`
reads the low 32 bits of the slot (little-endian host). -/
def teleProcess_jniGatherThread (L : TlaLayout) (localTla : Address → List Nat)
    (localNtl : Address → NativeThreadLocalsStruct) (noNtl : Address)
    (localHandle : Int) (state : Int) (instructionPointer : Int) (tla : Address) :
    GatheredThread :=
  let size := L.tlaWords * wordSize
  let r : List Nat × NativeThreadLocalsStruct :=
    if tla = 0 then
      let noTLA := List.replicate L.tlaWords 0
      let id := wrapJint localHandle
      let tla1 := tla_store noTLA L.ID (wordOfJint (if id < 0 then id else wrapJint (-id)))
      let tla2 := tla_store tla1 L.NATIVE_THREAD_LOCALS noNtl
      (tla2, ⟨0, 0, 0, 0, 0, 0⟩)
    else
      (localTla tla, localNtl (tla_load (localTla tla) L.NATIVE_THREAD_LOCALS))
  { id := toJint (tla_load r.1 L.ID)
    localHandle := localHandle
    handle := r.2.handle
    state := state
    instructionPointer := instructionPointer
    stackBase := r.2.stackBase
    stackSize := r.2.stackSize
    tlBlock := r.2.tlBlock
    tlBlockSize := r.2.tlBlockSize
    tlaSize := size }

/-! ## Remote memory access: `teleProcess_read`, `teleProcess_write` -/

/-- The Java object handed to `teleProcess_read` and `teleProcess_write` as destination or
source: the address `GetDirectBufferAddress` returns for it (0 when it is not a direct
buffer) and its bytes, which are the elements of a byte array or the memory of a direct
buffer from its address on. -/
structure JBuffer where
  directAddress : Nat
  bytes : List Nat
deriving DecidableEq, Repr

/-- What the two functions take from their surroundings, for a traced process whose state
has the type `σ`.  `readProcessMemory ph src buffer size` gives the result of the call (as
the `jint` it is assigned to) and the contents of the buffer afterwards;
`writeProcessMemory ph dst buffer size` the result (as an `int`) and the traced process
afterwards; `malloc n` the contents of the new buffer, `none` for
a null pointer; `bufferWord` is what the local variable `bufferWord` holds at first. -/
structure TeleEnv (σ : Type) where
  readProcessMemory : σ → Nat → List Nat → Nat → Int × List Nat
  writeProcessMemory : σ → Nat → List Nat → Nat → Int × σ
  malloc : Nat → Option (List Nat)
  bufferWord : List Nat

/-- The calls of `teleProcess_read` and `teleProcess_write` that leave the function. -/
inductive TeleCall where
  | GetDirectBufferAddress
  | malloc (size : Nat)
  | free
  | readProcessMemory (src : Nat) (size : Nat)
  | writeProcessMemory (dst : Nat) (size : Nat)
  | GetByteArrayRegion (start : Int) (len : Int)
  | SetByteArrayRegion (start : Int) (len : Int)
  | log_println
deriving DecidableEq, Repr

/-- The C conversion `(size_t) length` of a `jint`. -/
def toSizeT (length : Int) : Nat :=
  (length % 2 ^ 64).toNat

/-- The bytes `src` stored over the bytes of `dst` from the index `start` on. -/
def storeBytes (dst : List Nat) (start : Nat) (src : List Nat) : List Nat :=
  dst.take start ++ src ++ dst.drop (start + src.length)

/-- The JNI function `SetByteArrayRegion(env, array, start, len, buf)`: the elements of the
array afterwards.  A region that is not inside the array raises
`ArrayIndexOutOfBoundsException` and stores nothing. -/
def SetByteArrayRegion (array : List Nat) (start len : Int) (buf : List Nat) : List Nat :=
  if 0 ≤ start ∧ 0 ≤ len ∧ start + len ≤ array.length then
    storeBytes array start.toNat (buf.take len.toNat)
  else array

/-- The JNI function `GetByteArrayRegion(env, array, start, len, buf)`: the contents of the
buffer afterwards, `none` when the region is not inside the array and an exception is
pending. -/
def GetByteArrayRegion (array : List Nat) (start len : Int) (buf : List Nat) :
    Option (List Nat) :=
  if 0 ≤ start ∧ 0 ≤ len ∧ start + len ≤ array.length then
    some (storeBytes buf 0 ((array.drop start.toNat).take len.toNat))
  else none

/-- The function `teleProcess_read` of `teleProcess.c`: the returned value, the destination
afterwards and the calls made, in order.  The memory of a direct buffer from
`dstBuffer + offset` on is taken for a non-negative `offset`. -/
def teleProcess_read {σ : Type} (E : TeleEnv σ) (ph : σ) (src : Nat) (dst : JBuffer)
    (isDirectByteBuffer : Bool) (offset length : Int) : Int × JBuffer × List TeleCall :=
  let size := toSizeT length
  if isDirectByteBuffer then
    if dst.directAddress = 0 then
      (-1, dst, [TeleCall.GetDirectBufferAddress, TeleCall.log_println])
    else
      let r := E.readProcessMemory ph src (dst.bytes.drop offset.toNat) size
      (r.1, { dst with bytes := dst.bytes.take offset.toNat ++ r.2 },
        [TeleCall.GetDirectBufferAddress, TeleCall.readProcessMemory src size])
  else if size > wordSize then
    match E.malloc size with
    | none => (-1, dst, [TeleCall.malloc size, TeleCall.log_println])
    | some buffer =>
      let r := E.readProcessMemory ph src buffer size
      let bytesRead := r.1
      if bytesRead > 0 then
        (bytesRead, { dst with bytes := SetByteArrayRegion dst.bytes offset bytesRead r.2 },
          [TeleCall.malloc size, TeleCall.readProcessMemory src size,
            TeleCall.SetByteArrayRegion offset bytesRead, TeleCall.free])
      else
        (bytesRead, dst,
          [TeleCall.malloc size, TeleCall.readProcessMemory src size, TeleCall.free])
  else
    let r := E.readProcessMemory ph src E.bufferWord size
    let bytesRead := r.1
    if bytesRead > 0 then
      (bytesRead, { dst with bytes := SetByteArrayRegion dst.bytes offset bytesRead r.2 },
        [TeleCall.readProcessMemory src size, TeleCall.SetByteArrayRegion offset bytesRead])
    else
      (bytesRead, dst, [TeleCall.readProcessMemory src size])

/-- The function `teleProcess_write` of `teleProcess.c`: the returned value, the traced
process afterwards and the calls made, in order. -/
def teleProcess_write {σ : Type} (E : TeleEnv σ) (ph : σ) (dst : Nat) (src : JBuffer)
    (isDirectByteBuffer : Bool) (offset length : Int) : Int × σ × List TeleCall :=
  let size := toSizeT length
  if isDirectByteBuffer then
    if src.directAddress = 0 then
      (-1, ph, [TeleCall.GetDirectBufferAddress, TeleCall.log_println])
    else
      let r := E.writeProcessMemory ph dst (src.bytes.drop offset.toNat) size
      (r.1, r.2, [TeleCall.GetDirectBufferAddress, TeleCall.writeProcessMemory dst size])
  else if size > wordSize then
    match E.malloc size with
    | none => (-1, ph, [TeleCall.malloc size, TeleCall.log_println])
    | some buffer =>
      match GetByteArrayRegion src.bytes offset length buffer with
      | none =>
        (-1, ph, [TeleCall.malloc size, TeleCall.GetByteArrayRegion offset length,
          TeleCall.log_println])
      | some srcBuffer =>
        let r := E.writeProcessMemory ph dst srcBuffer size
        (r.1, r.2, [TeleCall.malloc size, TeleCall.GetByteArrayRegion offset length,
          TeleCall.writeProcessMemory dst size, TeleCall.free])
  else
    match GetByteArrayRegion src.bytes offset length E.bufferWord with
    | none => (-1, ph, [TeleCall.GetByteArrayRegion offset length, TeleCall.log_println])
    | some srcBuffer =>
      let r := E.writeProcessMemory ph dst srcBuffer size
      (r.1, r.2, [TeleCall.GetByteArrayRegion offset length,
        TeleCall.writeProcessMemory dst size])

/-- The memory of a traced process, byte by byte. -/
abbrev ProcessBytes := Nat → Nat

/-- A `readProcessMemory` that loads the bytes asked for: it puts the `size` bytes from
`src` on at the start of the buffer and returns `size`. -/
def loadBytes (pm : ProcessBytes) (src : Nat) (buffer : List Nat) (size : Nat) :
    Int × List Nat :=
  ((size : Int), storeBytes buffer 0 ((List.range size).map (fun i => pm (src + i))))

/-- A `writeProcessMemory` that stores the bytes given: the first `size` bytes of the
buffer go to the addresses from `dst` on, and it returns `size`. -/
def storeProcessBytes (pm : ProcessBytes) (dst : Nat) (buffer : List Nat) (size : Nat) :
    Int × ProcessBytes :=
  ((size : Int), fun a => if dst ≤ a ∧ a < dst + size then buffer.getD (a - dst) 0 else pm a)

/-- The surroundings in which `writeProcessMemory` stores and `readProcessMemory` loads the
given bytes, with the allocator `malloc`. -/
def memoryEnv (malloc : Nat → Option (List Nat)) (bufferWord : List Nat) :
    TeleEnv ProcessBytes :=
  { readProcessMemory := loadBytes, writeProcessMemory := storeProcessBytes,
    malloc := malloc, bufferWord := bufferWord }

/-- An allocator that gives every buffer asked for, filled with the byte 170. -/
def mallocOk (n : Nat) : Option (List Nat) :=
  some (List.replicate n 170)

/-- An allocator that gives no buffer. -/
def mallocNull (_n : Nat) : Option (List Nat) :=
  none

/-- The nine bytes 1 to 9. -/
def nineBytes : List Nat := [1, 2, 3, 4, 5, 6, 7, 8, 9]

/-- The buffer that `teleProcess_read` and `teleProcess_write` use for a byte array: a
buffer from `malloc` for more than a word's worth of bytes (`none` when `malloc` gives
none), the local variable `bufferWord` otherwise. -/
def arrayBuffer {σ : Type} (E : TeleEnv σ) (size : Nat) : Option (List Nat) :=
  if size > wordSize then E.malloc size else some E.bufferWord

/-- A traced process whose byte at each address is the address modulo 256. -/
def exampleBytes : ProcessBytes := fun a => a % 256

/-- Surroundings with the ideal process memory, an allocator that succeeds and a local
word holding the byte 85 eight times. -/
def exampleEnv : TeleEnv ProcessBytes :=
  memoryEnv mallocOk (List.replicate 8 85)

/-- Surroundings with the ideal process memory and an allocator that gives no buffer. -/
def noMemoryEnv : TeleEnv ProcessBytes :=
  memoryEnv mallocNull (List.replicate 8 85)

/-! ## Lemmas on the remote side -/

theorem readProcessMemory_length (mem : RemoteMemory) (src : Address) (n : Nat) :
    (readProcessMemory mem src n).length = n := by
  simp [readProcessMemory]

theorem tla_load_readProcessMemory (mem : RemoteMemory) (src : Address) (n i : Nat)
    (hi : i < n) : tla_load (readProcessMemory mem src n) i = mem (src + i * wordSize) := by
  simp [tla_load, readProcessMemory, List.getD, hi]

theorem tla_load_tla_store (buf : List Nat) (i j v : Nat) (hi : i < buf.length) :
    tla_load (tla_store buf j v) i = if i = j then v else tla_load buf i := by
  unfold tla_load tla_store
  by_cases h : i = j
  · subst h
    simp [List.getD, hi]
  · have h2 : j ≠ i := fun e => h e.symm
    simp [List.getD, List.getElem?_set_ne h2, h]

theorem isTLAForStackPointer_holdsCopy (L : TlaLayout) (mem : RemoteMemory)
    (sp tla nc : Address) (hN : L.NATIVE_THREAD_LOCALS < L.tlaWords) :
    HoldsCopyOf L mem tla nc (isTLAForStackPointer L mem sp tla nc).2 := by
  refine ⟨?_, ?_, ?_⟩
  · simp [isTLAForStackPointer, tla_store, readProcessMemory_length]
  · intro i hi
    simp only [isTLAForStackPointer]
    rw [tla_load_tla_store _ _ _ _ (by rw [readProcessMemory_length]; exact hi)]
    rw [tla_load_readProcessMemory _ _ _ _ hi]
  · simp only [isTLAForStackPointer, remoteNativeInfo]
    rw [tla_load_readProcessMemory _ _ _ _ hN]

theorem isTLAForStackPointer_forwardLink (L : TlaLayout) (mem : RemoteMemory)
    (sp tla nc : Address) (hF : L.FORWARD_LINK < L.tlaWords)
    (hFN : L.FORWARD_LINK ≠ L.NATIVE_THREAD_LOCALS) :
    tla_load (isTLAForStackPointer L mem sp tla nc).2.tlaCopy L.FORWARD_LINK
      = remoteForwardLink L mem tla := by
  simp only [isTLAForStackPointer, remoteForwardLink]
  rw [tla_load_tla_store _ _ _ _ (by rw [readProcessMemory_length]; exact hF)]
  rw [tla_load_readProcessMemory _ _ _ _ hF, if_neg hFN]

theorem isTLAForStackPointer_true_iff (L : TlaLayout) (mem : RemoteMemory)
    (sp tla nc : Address) :
    (isTLAForStackPointer L mem sp tla nc).1 = true ↔
      (isTLAForStackPointer L mem sp tla nc).2.ntlCopy.stackBase ≤ sp ∧
      sp < ((isTLAForStackPointer L mem sp tla nc).2.ntlCopy.stackBase
        + (isTLAForStackPointer L mem sp tla nc).2.ntlCopy.stackSize) % wordMod := by
  simp [isTLAForStackPointer]

theorem wrapped_test_iff (b s p : Nat) (hb : b < wordMod) (hs : s < wordMod) :
    (b ≤ p ∧ p < (b + s) % wordMod) ↔ (b ≤ p ∧ p < b + s) ∧ b + s < wordMod := by
  constructor
  · rintro ⟨h1, h2⟩
    by_cases hlt : b + s < wordMod
    · rw [Nat.mod_eq_of_lt hlt] at h2
      exact ⟨⟨h1, h2⟩, hlt⟩
    · exfalso
      have h3 : (b + s) % wordMod = b + s - wordMod := by
        rw [Nat.mod_eq_sub_mod (Nat.le_of_not_lt hlt)]
        apply Nat.mod_eq_of_lt
        omega
      omega
  · rintro ⟨⟨h1, h2⟩, hlt⟩
    rw [Nat.mod_eq_of_lt hlt]
    exact ⟨h1, h2⟩

theorem isTLAForStackPointer_of_contains (L : TlaLayout) (mem : RemoteMemory)
    (sp tla nc : Address) (hN : L.NATIVE_THREAD_LOCALS < L.tlaWords)
    (h : stackContains (remoteNativeInfo L mem tla) sp) :
    (isTLAForStackPointer L mem sp tla nc).1 = true := by
  rw [isTLAForStackPointer_true_iff]
  rw [(isTLAForStackPointer_holdsCopy L mem sp tla nc hN).2.2]
  obtain ⟨⟨h1, h2⟩, h3⟩ := h
  rw [Nat.mod_eq_of_lt h3]
  exact ⟨h1, h2⟩

theorem isTLAForStackPointer_false_of_outside (L : TlaLayout) (mem : RemoteMemory)
    (sp tla nc : Address) (hN : L.NATIVE_THREAD_LOCALS < L.tlaWords)
    (h : ¬ inStackRange (remoteNativeInfo L mem tla) sp) :
    (isTLAForStackPointer L mem sp tla nc).1 = false := by
  by_contra hc
  rw [Bool.not_eq_false, isTLAForStackPointer_true_iff,
    (isTLAForStackPointer_holdsCopy L mem sp tla nc hN).2.2] at hc
  exact h ⟨hc.1, lt_of_lt_of_le hc.2 (Nat.mod_le _ _)⟩

theorem findLoop_no_match (L : TlaLayout) (mem : RemoteMemory) (sp nc : Address)
    (hF : L.FORWARD_LINK < L.tlaWords) (hFN : L.FORWARD_LINK ≠ L.NATIVE_THREAD_LOCALS) :
    ∀ (chain : List Address) (head : Address) (s : Scratch) (fuel : Nat),
      IsTlaList L mem head chain →
      (∀ a ∈ chain, (isTLAForStackPointer L mem sp a nc).1 = false) →
      chain.length < fuel →
      ∃ s', findLoop L mem sp nc fuel head s = some (false, s') := by
  intro chain
  induction chain with
  | nil =>
    intro head s fuel hc _ hfuel
    obtain ⟨k, rfl⟩ : ∃ k, fuel = k + 1 := ⟨fuel - 1, by simp at hfuel; omega⟩
    simp only [IsTlaList] at hc
    exact ⟨s, by simp [findLoop, hc]⟩
  | cons a rest ih =>
    intro head s fuel hc hno hfuel
    obtain ⟨k, rfl⟩ : ∃ k, fuel = k + 1 := ⟨fuel - 1, by simp at hfuel; omega⟩
    obtain ⟨rfl, hne, hrest⟩ := hc
    have hfalse := hno head (List.mem_cons_self _ _)
    simp only [findLoop, if_neg hne, hfalse]
    rw [isTLAForStackPointer_forwardLink L mem sp head nc hF hFN]
    apply ih _ _ _ hrest (fun b hb => hno b (List.mem_cons_of_mem _ hb))
    simp at hfuel
    omega

theorem findLoop_first_match (L : TlaLayout) (mem : RemoteMemory) (sp nc : Address)
    (hF : L.FORWARD_LINK < L.tlaWords) (hFN : L.FORWARD_LINK ≠ L.NATIVE_THREAD_LOCALS)
    (T : Address) (post : List Address) :
    ∀ (pre : List Address) (head : Address) (s : Scratch) (fuel : Nat),
      IsTlaList L mem head (pre ++ T :: post) →
      (∀ a ∈ pre, (isTLAForStackPointer L mem sp a nc).1 = false) →
      (isTLAForStackPointer L mem sp T nc).1 = true →
      pre.length < fuel →
      findLoop L mem sp nc fuel head s = some (true, (isTLAForStackPointer L mem sp T nc).2) := by
  intro pre
  induction pre with
  | nil =>
    intro head s fuel hc _ hT hfuel
    obtain ⟨k, rfl⟩ : ∃ k, fuel = k + 1 := ⟨fuel - 1, by simp at hfuel; omega⟩
    obtain ⟨rfl, hne, _⟩ := hc
    simp [findLoop, hne, hT]
  | cons a rest ih =>
    intro head s fuel hc hno hT hfuel
    obtain ⟨k, rfl⟩ : ∃ k, fuel = k + 1 := ⟨fuel - 1, by simp at hfuel; omega⟩
    obtain ⟨rfl, hne, hrest⟩ := hc
    have hfalse := hno head (List.mem_cons_self _ _)
    simp only [findLoop, if_neg hne, hfalse]
    rw [isTLAForStackPointer_forwardLink L mem sp head nc hF hFN]
    apply ih _ _ _ hrest (fun b hb => hno b (List.mem_cons_of_mem _ hb)) hT
    simp at hfuel
    omega

theorem stackContains_iff_test (L : TlaLayout) (mem : RemoteMemory)
    (sp tla nc : Address)
    (hb : (isTLAForStackPointer L mem sp tla nc).2.ntlCopy.stackBase < wordMod)
    (hs : (isTLAForStackPointer L mem sp tla nc).2.ntlCopy.stackSize < wordMod) :
    ((isTLAForStackPointer L mem sp tla nc).1 = true ↔
      stackContains (isTLAForStackPointer L mem sp tla nc).2.ntlCopy sp) := by
  rw [isTLAForStackPointer_true_iff, wrapped_test_iff _ _ sp hb hs]
  rfl

/-! ## `teleProcess_findTLA` -/

theorem teleProcess_findTLA_of_first_match (L : TlaLayout) (mem : RemoteMemory)
    (hN : L.NATIVE_THREAD_LOCALS < L.tlaWords) (hF : L.FORWARD_LINK < L.tlaWords)
    (hFN : L.FORWARD_LINK ≠ L.NATIVE_THREAD_LOCALS)
    (tlaList primordialTLA sp tlaCopy ntlCopy : Address) (pre post : List Address) (T : Address)
    (hchain : IsTlaList L mem tlaList (pre ++ T :: post))
    (hpre : ∀ a ∈ pre, (isTLAForStackPointer L mem sp a ntlCopy).1 = false)
    (hT : stackContains (remoteNativeInfo L mem T) sp) (fuel : Nat) (hfuel : pre.length < fuel) :
    ∃ s, teleProcess_findTLA fuel L mem tlaList primordialTLA sp tlaCopy ntlCopy
        = some (tlaCopy, s) ∧ HoldsCopyOf L mem T ntlCopy s := by
  have hm := findLoop_first_match L mem sp ntlCopy hF hFN T post pre tlaList
    { tlaCopy := List.replicate L.tlaWords 0, ntlCopy := ⟨0, 0, 0, 0, 0, 0⟩ } fuel hchain hpre
    (isTLAForStackPointer_of_contains L mem sp T ntlCopy hN hT) hfuel
  have h0 : tlaList ≠ 0 := by
    cases pre with
    | nil => exact hchain.1 ▸ hchain.2.1
    | cons a rest => exact hchain.1 ▸ hchain.2.1
  refine ⟨(isTLAForStackPointer L mem sp T ntlCopy).2, ?_,
    isTLAForStackPointer_holdsCopy L mem sp T ntlCopy hN⟩
  simp only [teleProcess_findTLA, if_pos h0, hm]

theorem teleProcess_findTLA_of_no_match (L : TlaLayout) (mem : RemoteMemory)
    (hF : L.FORWARD_LINK < L.tlaWords) (hFN : L.FORWARD_LINK ≠ L.NATIVE_THREAD_LOCALS)
    (tlaList primordialTLA sp tlaCopy ntlCopy : Address) (chain : List Address)
    (hchain : IsTlaList L mem tlaList chain)
    (hno : ∀ a ∈ chain, (isTLAForStackPointer L mem sp a ntlCopy).1 = false)
    (fuel : Nat) (hfuel : chain.length < fuel) :
    ∃ s, teleProcess_findTLA fuel L mem tlaList primordialTLA sp tlaCopy ntlCopy
        = if primordialTLA ≠ 0 then
            (if (isTLAForStackPointer L mem sp primordialTLA ntlCopy).1 then
              some (tlaCopy, (isTLAForStackPointer L mem sp primordialTLA ntlCopy).2)
            else some (0, (isTLAForStackPointer L mem sp primordialTLA ntlCopy).2))
          else some (0, s) := by
  by_cases h0 : tlaList = 0
  · exact ⟨{ tlaCopy := List.replicate L.tlaWords 0, ntlCopy := ⟨0, 0, 0, 0, 0, 0⟩ },
      by simp only [teleProcess_findTLA, h0, ne_eq, not_true_eq_false, if_false]⟩
  · obtain ⟨s, hs⟩ := findLoop_no_match L mem sp ntlCopy hF hFN chain tlaList
      { tlaCopy := List.replicate L.tlaWords 0, ntlCopy := ⟨0, 0, 0, 0, 0, 0⟩ } fuel hchain hno
      hfuel
    exact ⟨s, by simp only [teleProcess_findTLA, ne_eq, h0, not_false_eq_true, if_true, hs]⟩

theorem not_contains_imp_false (L : TlaLayout) (mem : RemoteMemory)
    (hN : L.NATIVE_THREAD_LOCALS < L.tlaWords) (hw : ∀ a, mem a < wordMod)
    (sp a nc : Address) (h : ¬ stackContains (remoteNativeInfo L mem a) sp) :
    (isTLAForStackPointer L mem sp a nc).1 = false := by
  by_contra hc
  rw [Bool.not_eq_false] at hc
  have hcopy := (isTLAForStackPointer_holdsCopy L mem sp a nc hN).2.2
  have := (stackContains_iff_test L mem sp a nc
    (by rw [hcopy]; exact hw _) (by rw [hcopy]; exact hw _)).1 hc
  rw [hcopy] at this
  exact h this

/-- C1 (as amended): if following `FORWARD_LINK` from `tlaList` reaches null after the
areas of `chain`, whose stack ranges are pairwise disjoint, and the stack pointer lies in
the stack range of the area `T` of the list, that range ending below the end of the
address space (`stackBase + stackSize < 2^64`), then `teleProcess_findTLA` returns
`tlaCopy` as soon as it may make more probes than the list is long, and on return the
scratch buffers hold the copy of `T` (its slots, with `NATIVE_THREAD_LOCALS` redirected to
`ntlCopy`) and of the native-info record of `T`. -/
theorem teleProcess_findTLA_finds_thread (L : TlaLayout) (mem : RemoteMemory)
    (hN : L.NATIVE_THREAD_LOCALS < L.tlaWords) (hF : L.FORWARD_LINK < L.tlaWords)
    (hFN : L.FORWARD_LINK ≠ L.NATIVE_THREAD_LOCALS)
    (tlaList primordialTLA stackPointer tlaCopy ntlCopy : Address) (chain : List Address)
    (hchain : IsTlaList L mem tlaList chain)
    (hdisj : chain.Pairwise (fun a b => ∀ p,
      ¬ (inStackRange (remoteNativeInfo L mem a) p ∧ inStackRange (remoteNativeInfo L mem b) p)))
    (T : Address) (hT : T ∈ chain)
    (hsp : stackContains (remoteNativeInfo L mem T) stackPointer)
    (fuel : Nat) (hfuel : chain.length < fuel) :
    ∃ s, teleProcess_findTLA fuel L mem tlaList primordialTLA stackPointer tlaCopy ntlCopy
        = some (tlaCopy, s) ∧ HoldsCopyOf L mem T ntlCopy s := by
  obtain ⟨pre, post, rfl⟩ := List.append_of_mem hT
  rw [List.pairwise_append] at hdisj
  apply teleProcess_findTLA_of_first_match L mem hN hF hFN tlaList primordialTLA stackPointer
    tlaCopy ntlCopy pre post T hchain _ hsp fuel
  · simp at hfuel
    omega
  · intro a ha
    apply isTLAForStackPointer_false_of_outside L mem stackPointer a ntlCopy hN
    intro hin
    exact hdisj.2.2 a ha T (List.mem_cons_self _ _) stackPointer ⟨hin, hsp.1⟩

/-- Witness of C1 (as amended): the second thread of `twoThreadMemory`. -/
theorem teleProcess_findTLA_finds_thread_witness :
    ∃ s, teleProcess_findTLA 3 exLayout twoThreadMemory 256 768 8200 77 88 = some (77, s) ∧
      HoldsCopyOf exLayout twoThreadMemory 512 88 s :=
  teleProcess_findTLA_finds_thread exLayout twoThreadMemory (by decide) (by decide) (by decide)
    256 768 8200 77 88 [256, 512] (by decide)
    (by
      have h1 : remoteNativeInfo exLayout twoThreadMemory 256 = ⟨4096, 4096, 0, 0, 0, 0⟩ := by
        decide
      have h2 : remoteNativeInfo exLayout twoThreadMemory 512 = ⟨8192, 4096, 0, 0, 0, 0⟩ := by
        decide
      simp only [List.pairwise_cons, List.mem_singleton, List.not_mem_nil, forall_eq,
        List.Pairwise.nil, and_true, false_implies, implies_true, h1, h2, inStackRange]
      intro p
      omega)
    512 (by decide) (by decide) 3 (by decide)

/-- C1 (as stated) fails: in `topStackMemory` the list is the one area 4096, whose stack
range `[2^64 - 4096, 2^64)` contains the stack pointer `2^64 - 8`, and
`teleProcess_findTLA` returns 0, not `tlaCopy`. -/
theorem teleProcess_findTLA_top_page_not_found :
    IsTlaList exLayout topStackMemory 4096 [4096] ∧
    [4096].Pairwise (fun a b => ∀ p,
      ¬ (inStackRange (remoteNativeInfo exLayout topStackMemory a) p ∧
        inStackRange (remoteNativeInfo exLayout topStackMemory b) p)) ∧
    inStackRange (remoteNativeInfo exLayout topStackMemory 4096) (2 ^ 64 - 8) ∧
    teleProcess_findTLA 2 exLayout topStackMemory 4096 0 (2 ^ 64 - 8) 77 88
      = some (0, { tlaCopy := [88, 0, 0, 0], ntlCopy := ⟨2 ^ 64 - 4096, 4096, 0, 0, 0, 0⟩ }) := by
  refine ⟨by decide, ?_, by decide, by decide⟩
  simp


/-- C2: if following `FORWARD_LINK` from `tlaList` reaches null after the areas of `chain`,
the stack pointer is outside the stack range of each of them and outside the range of the
primordial block (or `primordialTLA` is 0), then `teleProcess_findTLA` returns 0 as soon
as it may make more probes than the list is long; it returns 0 in particular when
`tlaList` and `primordialTLA` are both 0. -/
theorem teleProcess_findTLA_not_found (L : TlaLayout) (mem : RemoteMemory)
    (hN : L.NATIVE_THREAD_LOCALS < L.tlaWords) (hF : L.FORWARD_LINK < L.tlaWords)
    (hFN : L.FORWARD_LINK ≠ L.NATIVE_THREAD_LOCALS)
    (tlaList primordialTLA stackPointer tlaCopy ntlCopy : Address) (chain : List Address)
    (hchain : IsTlaList L mem tlaList chain)
    (hout : ∀ a ∈ chain, ¬ inStackRange (remoteNativeInfo L mem a) stackPointer)
    (hprim : primordialTLA = 0 ∨
      ¬ inStackRange (remoteNativeInfo L mem primordialTLA) stackPointer)
    (fuel : Nat) (hfuel : chain.length < fuel) :
    (∃ s, teleProcess_findTLA fuel L mem tlaList primordialTLA stackPointer tlaCopy ntlCopy
        = some (0, s)) ∧
    (∃ s, teleProcess_findTLA fuel L mem 0 0 stackPointer tlaCopy ntlCopy = some (0, s)) := by
  constructor
  · obtain ⟨s, hs⟩ := teleProcess_findTLA_of_no_match L mem hF hFN tlaList primordialTLA
      stackPointer tlaCopy ntlCopy chain hchain
      (fun a ha => isTLAForStackPointer_false_of_outside L mem stackPointer a ntlCopy hN
        (hout a ha)) fuel hfuel
    rw [hs]
    by_cases hp : primordialTLA = 0
    · exact ⟨s, by simp [hp]⟩
    · have hp2 := hprim.resolve_left hp
      have := isTLAForStackPointer_false_of_outside L mem stackPointer primordialTLA ntlCopy
        hN hp2
      exact ⟨(isTLAForStackPointer L mem stackPointer primordialTLA ntlCopy).2,
        by simp [hp, this]⟩
  · obtain ⟨s, hs⟩ := teleProcess_findTLA_of_no_match L mem hF hFN 0 0
      stackPointer tlaCopy ntlCopy [] rfl (fun a ha => absurd ha (List.not_mem_nil a)) fuel
      (by simp at hfuel ⊢; omega)
    exact ⟨s, by simpa using hs⟩

/-- Witness of C2: the two threads of `twoThreadMemory` and a stack pointer above every
stack. -/
theorem teleProcess_findTLA_not_found_witness :
    (∃ s, teleProcess_findTLA 3 exLayout twoThreadMemory 256 768 20480 77 88 = some (0, s)) ∧
    (∃ s, teleProcess_findTLA 3 exLayout twoThreadMemory 0 0 20480 77 88 = some (0, s)) :=
  teleProcess_findTLA_not_found exLayout twoThreadMemory (by decide) (by decide) (by decide)
    256 768 20480 77 88 [256, 512] (by decide) (by decide) (Or.inr (by decide)) 3 (by decide)

/-- C3 (as amended), a stack range containing an address when
`stackBase <= address < stackBase + stackSize < 2^64`: if no area of the list contains the
stack pointer and `primordialTLA` is non-zero and the primordial block contains it, the
result is `tlaCopy` holding the copy of the primordial block; if `primordialTLA` is 0 the
result is then 0; and if the list is `pre ++ T :: post`, no area of `pre` contains the
stack pointer and `T` does, the result is `tlaCopy` holding the copy of `T`, whatever the
primordial block contains. -/
theorem teleProcess_findTLA_primordial_last (L : TlaLayout) (mem : RemoteMemory)
    (hN : L.NATIVE_THREAD_LOCALS < L.tlaWords) (hF : L.FORWARD_LINK < L.tlaWords)
    (hFN : L.FORWARD_LINK ≠ L.NATIVE_THREAD_LOCALS) (hw : ∀ a, mem a < wordMod)
    (tlaList primordialTLA stackPointer tlaCopy ntlCopy : Address) (fuel : Nat) :
    (∀ chain, IsTlaList L mem tlaList chain → chain.length < fuel →
      (∀ a ∈ chain, ¬ stackContains (remoteNativeInfo L mem a) stackPointer) →
      (primordialTLA ≠ 0 → stackContains (remoteNativeInfo L mem primordialTLA) stackPointer →
        ∃ s, teleProcess_findTLA fuel L mem tlaList primordialTLA stackPointer tlaCopy ntlCopy
          = some (tlaCopy, s) ∧ HoldsCopyOf L mem primordialTLA ntlCopy s) ∧
      (primordialTLA = 0 →
        ∃ s, teleProcess_findTLA fuel L mem tlaList primordialTLA stackPointer tlaCopy ntlCopy
          = some (0, s))) ∧
    (∀ pre T post, IsTlaList L mem tlaList (pre ++ T :: post) → pre.length < fuel →
      (∀ a ∈ pre, ¬ stackContains (remoteNativeInfo L mem a) stackPointer) →
      stackContains (remoteNativeInfo L mem T) stackPointer →
      ∃ s, teleProcess_findTLA fuel L mem tlaList primordialTLA stackPointer tlaCopy ntlCopy
        = some (tlaCopy, s) ∧ HoldsCopyOf L mem T ntlCopy s) := by
  constructor
  · intro chain hchain hfuel hno
    obtain ⟨s, hs⟩ := teleProcess_findTLA_of_no_match L mem hF hFN tlaList primordialTLA
      stackPointer tlaCopy ntlCopy chain hchain
      (fun a ha => not_contains_imp_false L mem hN hw stackPointer a ntlCopy (hno a ha))
      fuel hfuel
    rw [hs]
    constructor
    · intro hp hc
      have ht := isTLAForStackPointer_of_contains L mem stackPointer primordialTLA ntlCopy hN hc
      exact ⟨(isTLAForStackPointer L mem stackPointer primordialTLA ntlCopy).2,
        by simp [hp, ht],
        isTLAForStackPointer_holdsCopy L mem stackPointer primordialTLA ntlCopy hN⟩
    · intro hp
      exact ⟨s, by simp [hp]⟩
  · intro pre T post hchain hfuel hno hT
    exact teleProcess_findTLA_of_first_match L mem hN hF hFN tlaList primordialTLA stackPointer
      tlaCopy ntlCopy pre post T hchain
      (fun a ha => not_contains_imp_false L mem hN hw stackPointer a ntlCopy (hno a ha))
      hT fuel hfuel

theorem memoryOf_lt (cells : List (Address × Nat)) (bound : Nat) (h0 : 0 < bound)
    (h : ∀ c ∈ cells, c.2 < bound) (a : Address) : memoryOf cells a < bound := by
  unfold memoryOf
  cases hf : cells.find? (fun c => c.1 == a) with
  | none => exact h0
  | some c => exact h c (List.mem_of_find?_eq_some hf)

theorem twoThreadMemory_words : ∀ a, twoThreadMemory a < wordMod :=
  memoryOf_lt _ _ (by decide) (by decide)

/-- Witness of C3 (as amended), in `twoThreadMemory`: the stack pointer 16384 is in the
range of the primordial block only, and 8200 is in the stack of the second thread and in
the range of the primordial block. -/
theorem teleProcess_findTLA_primordial_last_witness :
    (∃ s, teleProcess_findTLA 3 exLayout twoThreadMemory 256 768 16384 77 88 = some (77, s) ∧
      HoldsCopyOf exLayout twoThreadMemory 768 88 s) ∧
    (stackContains (remoteNativeInfo exLayout twoThreadMemory 768) 8200 ∧
      ∃ s, teleProcess_findTLA 3 exLayout twoThreadMemory 256 768 8200 77 88 = some (77, s) ∧
        HoldsCopyOf exLayout twoThreadMemory 512 88 s) :=
  ⟨((teleProcess_findTLA_primordial_last exLayout twoThreadMemory (by decide) (by decide)
      (by decide) twoThreadMemory_words 256 768 16384 77 88 3).1 [256, 512]
      (by decide) (by decide) (by decide)).1 (by decide) (by decide),
    by decide,
    (teleProcess_findTLA_primordial_last exLayout twoThreadMemory (by decide) (by decide)
      (by decide) twoThreadMemory_words 256 768 8200 77 88 3).2 [256] 512 []
      (by decide) (by decide) (by decide) (by decide)⟩

/-- C3 (as stated) fails: in `topStackMemory` with an empty list and the block 4096 as
primordial block, the range `[2^64 - 4096, 2^64)` of the primordial block contains the
stack pointer `2^64 - 8`, and the result is 0, not `tlaCopy`. -/
theorem teleProcess_findTLA_primordial_top_page_not_found :
    IsTlaList exLayout topStackMemory 0 [] ∧
    inStackRange (remoteNativeInfo exLayout topStackMemory 4096) (2 ^ 64 - 8) ∧
    teleProcess_findTLA 1 exLayout topStackMemory 0 4096 (2 ^ 64 - 8) 77 88
      = some (0, { tlaCopy := [88, 0, 0, 0], ntlCopy := ⟨2 ^ 64 - 4096, 4096, 0, 0, 0, 0⟩ }) := by
  refine ⟨by decide, by decide, by decide⟩

/-! ## The range test of `isTLAForStackPointer` -/

/-- C4 (as amended): for machine-word `stackBase` and `stackSize` in the copied native-info
record, `isTLAForStackPointer` returns true exactly when
`stackBase <= stackPointer < stackBase + stackSize` and the sum `stackBase + stackSize` is
itself a machine word (below `2^64`); the sum is computed in machine words, so a range
that reaches the end of the address space matches nothing.  Hence `stackPointer =
stackBase` matches exactly when `stackSize` is positive and the sum is a machine word, the
stack pointer equal to the computed upper bound never matches, and a record with
`stackSize` 0 never matches. -/
theorem isTLAForStackPointer_range_test (L : TlaLayout) (mem : RemoteMemory)
    (stackPointer tla ntlCopy : Address)
    (hb : (isTLAForStackPointer L mem stackPointer tla ntlCopy).2.ntlCopy.stackBase < wordMod)
    (hs : (isTLAForStackPointer L mem stackPointer tla ntlCopy).2.ntlCopy.stackSize < wordMod) :
    ((isTLAForStackPointer L mem stackPointer tla ntlCopy).1 = true ↔
      stackContains (isTLAForStackPointer L mem stackPointer tla ntlCopy).2.ntlCopy stackPointer) ∧
    (stackPointer = (isTLAForStackPointer L mem stackPointer tla ntlCopy).2.ntlCopy.stackBase →
      ((isTLAForStackPointer L mem stackPointer tla ntlCopy).1 = true ↔
        0 < (isTLAForStackPointer L mem stackPointer tla ntlCopy).2.ntlCopy.stackSize ∧
        (isTLAForStackPointer L mem stackPointer tla ntlCopy).2.ntlCopy.stackBase
          + (isTLAForStackPointer L mem stackPointer tla ntlCopy).2.ntlCopy.stackSize < wordMod)) ∧
    (stackPointer = ((isTLAForStackPointer L mem stackPointer tla ntlCopy).2.ntlCopy.stackBase
        + (isTLAForStackPointer L mem stackPointer tla ntlCopy).2.ntlCopy.stackSize) % wordMod →
      (isTLAForStackPointer L mem stackPointer tla ntlCopy).1 = false) ∧
    ((isTLAForStackPointer L mem stackPointer tla ntlCopy).2.ntlCopy.stackSize = 0 →
      (isTLAForStackPointer L mem stackPointer tla ntlCopy).1 = false) := by
  have key := isTLAForStackPointer_true_iff L mem stackPointer tla ntlCopy
  have hiff := wrapped_test_iff _ _ stackPointer hb hs
  have main : (isTLAForStackPointer L mem stackPointer tla ntlCopy).1 = true ↔
      stackContains (isTLAForStackPointer L mem stackPointer tla ntlCopy).2.ntlCopy stackPointer := by
    rw [key, hiff]
    rfl
  refine ⟨main, ?_, ?_, ?_⟩
  · intro hsp
    replace hsp : @Eq Nat stackPointer _ := hsp
    rw [main]
    unfold stackContains inStackRange
    constructor
    · rintro ⟨⟨_, h2⟩, h3⟩
      exact ⟨by omega, h3⟩
    · rintro ⟨h1, h3⟩
      exact ⟨⟨by omega, by omega⟩, h3⟩
  · intro hsp
    by_contra hc
    rw [Bool.not_eq_false, key] at hc
    exact lt_irrefl _ (lt_of_lt_of_eq hc.2 hsp.symm)
  · intro hz
    by_contra hc
    rw [Bool.not_eq_false, main] at hc
    unfold stackContains inStackRange at hc
    omega

/-- Witness of C4 (as amended): the second thread of `twoThreadMemory` and a stack pointer
in its stack. -/
theorem isTLAForStackPointer_range_test_witness :
    ((isTLAForStackPointer exLayout twoThreadMemory 8200 512 88).1 = true ↔
      stackContains (isTLAForStackPointer exLayout twoThreadMemory 8200 512 88).2.ntlCopy 8200) :=
  (isTLAForStackPointer_range_test exLayout twoThreadMemory 8200 512 88
    (by decide) (by decide)).1

/-- C4 (as stated) fails: a stack that is the last page of the address space has the
machine-word bounds `2^64 - 4096` and `4096`, the stack pointer `2^64 - 8` lies in
`[stackBase, stackBase + stackSize)` with the sum taken as the mathematical sum, and
`isTLAForStackPointer` returns false. -/
theorem isTLAForStackPointer_top_page_unmatched :
    (isTLAForStackPointer exLayout topStackMemory (2 ^ 64 - 8) 4096 88).2.ntlCopy.stackBase
      = 2 ^ 64 - 4096 ∧
    (isTLAForStackPointer exLayout topStackMemory (2 ^ 64 - 8) 4096 88).2.ntlCopy.stackSize
      = 4096 ∧
    (2 ^ 64 - 4096 < wordMod ∧ 4096 < wordMod ∧ 2 ^ 64 - 8 < wordMod) ∧
    inStackRange (isTLAForStackPointer exLayout topStackMemory (2 ^ 64 - 8) 4096 88).2.ntlCopy
      (2 ^ 64 - 8) ∧
    (isTLAForStackPointer exLayout topStackMemory (2 ^ 64 - 8) 4096 88).1 = false := by
  refine ⟨by decide, by decide, by decide, ?_, by decide⟩
  unfold inStackRange
  decide

/-! ## Lemmas on the local side -/

theorem setConstantThreadLocal_current (s s' : VM) (tl : Address) (n : LinkName) (v : Address)
    (h : setConstantThreadLocal s tl n v = some s') : s'.current = s.current := by
  unfold setConstantThreadLocal at h
  split at h
  · cases h
  · cases h; rfl

/-- C8: when the calling thread already has a metadata block (`threadLocals_current()` is
not 0), `thread_attachCurrent` returns `JNI_OK` with `*penv` the thread's existing JNI
environment handle and leaves the whole state as it was: the registry head, every
thread locals area, and the record of operations (no block allocated, no lock taken, no
upcall made).  Hence after any call that returned, with a non-null block if it allocated
one, a second call of the same thread changes nothing and returns `JNI_OK`. -/
theorem thread_attachCurrent_idempotent (L : TlaLayout) (nativeThread : Address) (st : VM) :
    (threadLocals_current st nativeThread ≠ 0 →
      ∀ tlBlock daemon upcallResult,
        thread_attachCurrent L nativeThread tlBlock daemon upcallResult st
          = some (JNI_OK, currentJniEnv L st nativeThread, st)) ∧
    (∀ tlBlock daemon upcallResult result penv st1, tlBlock ≠ 0 →
      thread_attachCurrent L nativeThread tlBlock daemon upcallResult st
        = some (result, penv, st1) →
      ∀ tlBlock2 daemon2 upcallResult2,
        thread_attachCurrent L nativeThread tlBlock2 daemon2 upcallResult2 st1
          = some (JNI_OK, currentJniEnv L st1 nativeThread, st1)) := by
  have part1 : ∀ s : VM, threadLocals_current s nativeThread ≠ 0 →
      ∀ tlBlock daemon upcallResult,
        thread_attachCurrent L nativeThread tlBlock daemon upcallResult s
          = some (JNI_OK, currentJniEnv L s nativeThread, s) := by
    intro s hcur tlBlock daemon upcallResult
    unfold thread_attachCurrent
    rw [if_pos hcur]
  refine ⟨part1 st, ?_⟩
  intro tlBlock daemon upcallResult result penv st1 hb0 hcall
  apply part1
  by_cases hcur : threadLocals_current st nativeThread ≠ 0
  · rw [part1 st hcur] at hcall
    cases hcall
    exact hcur
  · have hcur0 : threadLocals_current st nativeThread = 0 := not_not.mp hcur
    have hcurrent : st1.current nativeThread = tlBlock := by
      unfold thread_attachCurrent at hcall
      simp only [hcur0, ne_eq, not_true_eq_false, if_false] at hcall
      generalize hs2 : (threadLocalsBlock_create (attachTemporaryId nativeThread) tlBlock
        nativeThread st).emit Event.mutex_enter = s2 at hcall
      have hc2 : s2.current nativeThread = tlBlock := by
        rw [← hs2]
        simp [threadLocalsBlock_create, VM.emit]
      cases h3 : setConstantThreadLocal s2 (THREAD_LOCALS_FROM_TLBLOCK tlBlock)
          LinkName.FORWARD_LINK (image_read_value s2) with
      | none => rw [h3] at hcall; cases hcall
      | some st3 =>
        rw [h3] at hcall
        simp only at hcall
        cases h4 : setConstantThreadLocal st3 (image_read_value s2) LinkName.BACKWARD_LINK
            (THREAD_LOCALS_FROM_TLBLOCK tlBlock) with
        | none => rw [h4] at hcall; cases hcall
        | some st4 =>
          rw [h4] at hcall
          simp only at hcall
          have e : st4.current nativeThread = tlBlock := by
            rw [setConstantThreadLocal_current _ _ _ _ _ h4,
              setConstantThreadLocal_current _ _ _ _ _ h3]
            exact hc2
          split_ifs at hcall <;> cases hcall <;> exact e
    simp only [threadLocals_current, threadLocalsBlock_current, THREAD_LOCALS_FROM_TLBLOCK,
      hcurrent, if_neg hb0]
    exact hb0

/-- Witness of C8: the main thread (handle 100) of `mainThreadVM` already has the block
4096; and the thread 200, once attached with the block 8192, is attached. -/
theorem thread_attachCurrent_idempotent_witness :
    thread_attachCurrent exLayout 100 8192 false JNI_OK mainThreadVM
      = some (JNI_OK, currentJniEnv exLayout mainThreadVM 100, mainThreadVM) ∧
    ∃ penv st1, thread_attachCurrent exLayout 200 8192 false JNI_OK mainThreadVM
        = some (JNI_OK, penv, st1) ∧
      thread_attachCurrent exLayout 200 12288 false JNI_OK st1
        = some (JNI_OK, currentJniEnv exLayout st1 200, st1) :=
  ⟨(thread_attachCurrent_idempotent exLayout 100 mainThreadVM).1 (by decide) 8192 false JNI_OK,
    _, _, rfl,
    (thread_attachCurrent_idempotent exLayout 200 mainThreadVM).2 8192 false JNI_OK _ _ _
      (by decide) rfl 12288 false JNI_OK⟩

/-! ## The temporary id -/

/-- C9, the code at the failing input: for the thread handle `0x7f0000000000`, whose low
32 bits are zero, the temporary id is 0, which is not negative, and `thread_attachCurrent`
gives the new block the id 0; in general the temporary id is never positive, and it is
negative exactly when the low 32 bits of the handle are not all zero. -/
theorem attachTemporaryId_zero_low_bits :
    attachTemporaryId 0x7f0000000000 = 0 ∧
    (∃ penv st', thread_attachCurrent exLayout 0x7f0000000000 8192 false JNI_OK mainThreadVM
        = some (JNI_OK, penv, st') ∧
      st'.heap 8192 = some { ID := 0, FORWARD_LINK := 4096, BACKWARD_LINK := 0 }) ∧
    ∀ nativeThread : Nat, attachTemporaryId nativeThread ≤ 0 ∧
      (attachTemporaryId nativeThread < 0 ↔ nativeThread % 2 ^ 32 ≠ 0) := by
  refine ⟨by decide, ⟨_, _, rfl, rfl⟩, ?_⟩
  intro n
  unfold attachTemporaryId toJint wrapJint
  have hlt : n % 2 ^ 32 < 2 ^ 32 := Nat.mod_lt _ (by norm_num)
  generalize n % 2 ^ 32 = x at hlt
  simp only
  split_ifs <;> omega

/-! ## `thread_create` -/

/-- C10: for every stack size that `virtualMemory_pageAlign` does not leave unchanged, and
every id and priority, `thread_create` returns the null handle 0 and makes no thread
creation call to the operating system. -/
theorem thread_create_rejects_unaligned (P : Platform) (id : Int) (stackSize : Nat)
    (priority : Int) (h : P.virtualMemory_pageAlign stackSize ≠ stackSize) :
    (thread_create P id stackSize priority).1 = 0 ∧
    ∀ c ∈ (thread_create P id stackSize priority).2, c.isThreadCreation = false := by
  unfold thread_create
  rw [if_pos h]
  refine ⟨rfl, ?_⟩
  intro c hc
  simp only [List.mem_singleton] at hc
  subst hc
  rfl

/-- Witness of C10: a stack of 5000 bytes with pages of 4096 bytes. -/
theorem thread_create_rejects_unaligned_witness :
    (thread_create linuxPlatform 5 5000 1).1 = 0 ∧
    ∀ c ∈ (thread_create linuxPlatform 5 5000 1).2, c.isThreadCreation = false :=
  thread_create_rejects_unaligned linuxPlatform 5 5000 1 (by decide)


/-! ## `thread_create`, the request to the operating system -/

/-- C11: for every stack size that `virtualMemory_pageAlign` leaves unchanged,
`thread_create` asks the operating system for exactly one thread, whose stack size is
`stackSize` itself, or the minimum stack size when `stackSize` is below that minimum; it
returns the handle the operating system gives when that reports success (error code 0)
and the null handle 0 when it reports an error. -/
theorem thread_create_asks_once (P : Platform) (id : Int) (stackSize : Nat) (priority : Int)
    (h : P.virtualMemory_pageAlign stackSize = stackSize) :
    (thread_create P id stackSize priority).2.filter OsCall.isThreadCreation
      = [if P.os = Os.SOLARIS
          then OsCall.thr_create (if stackSize < P.stackMin then P.stackMin else stackSize) id
          else OsCall.pthread_create
            (if stackSize < P.stackMin then P.stackMin else stackSize) id] ∧
    ((P.osCreate (if stackSize < P.stackMin then P.stackMin else stackSize) id).1 = 0 →
      (thread_create P id stackSize priority).1
        = (P.osCreate (if stackSize < P.stackMin then P.stackMin else stackSize) id).2) ∧
    ((P.osCreate (if stackSize < P.stackMin then P.stackMin else stackSize) id).1 ≠ 0 →
      (thread_create P id stackSize priority).1 = 0) := by
  unfold thread_create
  rw [if_neg (not_not.mpr h)]
  generalize (if stackSize < P.stackMin then P.stackMin else stackSize) = asked
  cases hos : P.os <;>
    by_cases he : (P.osCreate asked id).1 = 0 <;>
    simp [he, List.filter, OsCall.isThreadCreation]

/-- Witness of C11: a stack of 8192 bytes, below the minimum of 16384 bytes, on the Linux
platform. -/
theorem thread_create_asks_once_witness :
    (thread_create linuxPlatform 5 8192 1).2.filter OsCall.isThreadCreation
      = [OsCall.pthread_create 16384 5] ∧
    (thread_create linuxPlatform 5 8192 1).1 = 7 :=
  ⟨(thread_create_asks_once linuxPlatform 5 8192 1 (by decide)).1,
    (thread_create_asks_once linuxPlatform 5 8192 1 (by decide)).2.1 (by decide)⟩

/-! ## `condition_wait`, `condition_timedWait` -/

theorem condition_wait_aux (os : Os) (osWait : WaitCall → Int) :
    ∃ call, (condition_wait os osWait).2.filter WaitCall.isWait = [call] ∧
      ((condition_wait os osWait).1 = true ↔ osWait call = 0) ∧
      (osWait call = EINTR → (condition_wait os osWait).1 = false) ∧
      (osWait call ≠ 0 → (condition_wait os osWait).1 = false) := by
  have hw : (waitCall os).isWait = true := by cases os <;> rfl
  have hl : ∀ e, (WaitCall.log_unexpected_error e).isWait = false := fun _ => rfl
  · refine ⟨waitCall os, ?_, ?_, ?_, ?_⟩
    · unfold condition_wait
      simp only
      split_ifs <;> simp [List.filter, hw, hl]
    · unfold condition_wait
      simp only
      split_ifs with h1 h2
      · simp [h1, EINTR]
      · simp [h2]
      · simp [not_not.mp h2]
    · intro h1
      unfold condition_wait
      simp only
      rw [if_pos h1]
    · intro h2
      unfold condition_wait
      simp only
      split_ifs <;> rfl

/-- C13: `condition_wait` makes exactly one wait call, and for every result code of that
call it returns true exactly when the code is 0; it returns false when the code is `EINTR`
and when it is any other non-zero code. -/
theorem condition_wait_result (os : Os) (osWait : WaitCall → Int) :
    ∃ call, (condition_wait os osWait).2.filter WaitCall.isWait = [call] ∧
      ((condition_wait os osWait).1 = true ↔ osWait call = 0) ∧
      (osWait call = EINTR → (condition_wait os osWait).1 = false) ∧
      (osWait call ≠ 0 → (condition_wait os osWait).1 = false) :=
  condition_wait_aux os osWait

/-- C12: `condition_timedWait` with the timeout 0 is `condition_wait`; for every timeout it
makes exactly one wait call, and for every result code of that call it returns true
exactly when the code is 0 or, for a timeout above 0, the code with which the thread
library reports that the time ran out; it returns false when the code is `EINTR` and when
it is any other non-zero code. -/
theorem condition_timedWait_result (os : Os) (now : timeval) (osWait : WaitCall → Int)
    (timeoutMilliSeconds : Nat) :
    (timeoutMilliSeconds = 0 →
      condition_timedWait os now osWait timeoutMilliSeconds = condition_wait os osWait) ∧
    ∃ call,
      (condition_timedWait os now osWait timeoutMilliSeconds).2.filter WaitCall.isWait
        = [call] ∧
      ((condition_timedWait os now osWait timeoutMilliSeconds).1 = true ↔
        osWait call = 0 ∨ (0 < timeoutMilliSeconds ∧ osWait call = timedOutCode os)) ∧
      (osWait call = EINTR →
        (condition_timedWait os now osWait timeoutMilliSeconds).1 = false) ∧
      (osWait call ≠ 0 → ¬ (0 < timeoutMilliSeconds ∧ osWait call = timedOutCode os) →
        (condition_timedWait os now osWait timeoutMilliSeconds).1 = false) := by
  constructor
  · intro h0
    unfold condition_timedWait
    rw [if_neg (by omega)]
  · by_cases ht : timeoutMilliSeconds > 0
    · have hcode : timedOutCode os ≠ 0 ∧ timedOutCode os ≠ EINTR := by
        cases os <;> simp [timedOutCode, EINTR]
      have hw : (timedWaitCall os now timeoutMilliSeconds).isWait = true := by
        cases os <;> rfl
      have hl : ∀ e, (WaitCall.log_unexpected_error e).isWait = false := fun _ => rfl
      · refine ⟨timedWaitCall os now timeoutMilliSeconds, ?_, ?_, ?_, ?_⟩
        · unfold condition_timedWait
          simp only [ht, if_true]
          split_ifs <;> simp [List.filter, hw, hl]
        · unfold condition_timedWait
          simp only [ht, if_true]
          split_ifs with h1 h2 h3
          · simp [h1]
          · have h4 : ¬ (EINTR = 0 ∨ EINTR = timedOutCode os) := by
              rintro (h | h)
              · exact absurd h (by decide)
              · exact hcode.2 h.symm
            simp [h2, h4]
          · simp [h1, h3]
          · simp [not_not.mp h3]
        · intro h2
          unfold condition_timedWait
          simp only [ht, if_true]
          rw [if_neg (by rw [h2]; exact fun e => hcode.2 e.symm), if_pos h2]
        · intro h3 h1
          unfold condition_timedWait
          simp only [ht, if_true]
          rw [if_neg (fun e => h1 ⟨ht, e⟩)]
          split_ifs <;> rfl
    · obtain ⟨call, h1, h2, h3, h4⟩ := condition_wait_aux os osWait
      have h0 : condition_timedWait os now osWait timeoutMilliSeconds
          = condition_wait os osWait := by
        unfold condition_timedWait
        rw [if_neg ht]
      rw [h0]
      refine ⟨call, h1, ?_, h3, fun hne _ => h4 hne⟩
      rw [h2]
      constructor
      · intro h; exact Or.inl h
      · rintro (h | ⟨hpos, _⟩)
        · exact h
        · exact absurd hpos ht

theorem wrapLong_eq (i : Int) (h1 : -2 ^ 63 ≤ i) (h2 : i < 2 ^ 63) : wrapLong i = i := by
  unfold wrapLong
  omega

theorem compute_abstime_spec (now : timeval) (millis : Int)
    (hm : 0 ≤ millis) (husec : 0 ≤ now.tv_usec ∧ now.tv_usec < 1000000)
    (hsec : -2 ^ 63 ≤ now.tv_sec ∧ now.tv_sec + 50000001 < 2 ^ 63) :
    0 ≤ (compute_abstime now millis).tv_nsec ∧
    (compute_abstime now millis).tv_nsec < 1000000000 ∧
    (compute_abstime now millis).nanos
      = now.nanos + (if millis / 1000 > 50000000 then 50000000 else millis / 1000) * 1000000000
        + (millis % 1000) * 1000000 := by
  obtain ⟨hu1, hu2⟩ := husec
  obtain ⟨hs1, hs2⟩ := hsec
  have hm0 : ¬ millis < 0 := not_lt.mpr hm
  have hq : 0 ≤ millis / 1000 := Int.ediv_nonneg hm (by norm_num)
  have hr1 : 0 ≤ millis % 1000 := Int.emod_nonneg _ (by norm_num)
  have hr2 : millis % 1000 < 1000 := Int.emod_lt_of_pos _ (by norm_num)
  unfold compute_abstime timespec.nanos timeval.nanos
  simp only [if_neg hm0]
  generalize millis / 1000 = q at hq ⊢
  generalize millis % 1000 = r at hr1 hr2 ⊢
  generalize now.tv_sec = s at hs1 hs2 ⊢
  generalize now.tv_usec = u at hu1 hu2 ⊢
  have e1 : wrapLong (r * 1000) = r * 1000 := wrapLong_eq _ (by omega) (by omega)
  have e2 : wrapLong (u + r * 1000) = u + r * 1000 := wrapLong_eq _ (by omega) (by omega)
  rw [e1, e2]
  by_cases hc : q > 50000000
  · simp only [if_pos hc]
    have e3 : wrapLong (s + 50000000) = s + 50000000 := wrapLong_eq _ (by omega) (by omega)
    rw [e3]
    by_cases hcarry : u + r * 1000 ≥ 1000000
    · simp only [if_pos hcarry]
      have e4 : wrapLong (s + 50000000 + 1) = s + 50000000 + 1 :=
        wrapLong_eq _ (by omega) (by omega)
      have e5 : wrapLong (u + r * 1000 - 1000000) = u + r * 1000 - 1000000 :=
        wrapLong_eq _ (by omega) (by omega)
      have e6 : wrapLong ((u + r * 1000 - 1000000) * 1000) = (u + r * 1000 - 1000000) * 1000 :=
        wrapLong_eq _ (by omega) (by omega)
      rw [e4, e5, e6]
      refine ⟨by omega, by omega, by omega⟩
    · simp only [if_neg hcarry]
      have e6 : wrapLong ((u + r * 1000) * 1000) = (u + r * 1000) * 1000 :=
        wrapLong_eq _ (by omega) (by omega)
      rw [e6]
      refine ⟨by omega, by omega, by omega⟩
  · simp only [if_neg hc]
    have e3 : wrapLong (s + q) = s + q := wrapLong_eq _ (by omega) (by omega)
    rw [e3]
    by_cases hcarry : u + r * 1000 ≥ 1000000
    · simp only [if_pos hcarry]
      have e4 : wrapLong (s + q + 1) = s + q + 1 := wrapLong_eq _ (by omega) (by omega)
      have e5 : wrapLong (u + r * 1000 - 1000000) = u + r * 1000 - 1000000 :=
        wrapLong_eq _ (by omega) (by omega)
      have e6 : wrapLong ((u + r * 1000 - 1000000) * 1000) = (u + r * 1000 - 1000000) * 1000 :=
        wrapLong_eq _ (by omega) (by omega)
      rw [e4, e5, e6]
      refine ⟨by omega, by omega, by omega⟩
    · simp only [if_neg hcarry]
      have e6 : wrapLong ((u + r * 1000) * 1000) = (u + r * 1000) * 1000 :=
        wrapLong_eq _ (by omega) (by omega)
      rw [e6]
      refine ⟨by omega, by omega, by omega⟩

/-- C14 (as amended): on Linux and Darwin, for every timeout `T` with `0 < T < 2^63`
milliseconds and every current time `now` with `0 <= tv_usec < 1,000,000` whose `tv_sec`
leaves room for the delay (`tv_sec + 50,000,001 < 2^63`), the one wait call of
`condition_timedWait` is `pthread_cond_timedwait` with a deadline in normal form
(`0 <= tv_nsec < 10^9`) that is `now + T` when `T / 1000 <= 50,000,000` seconds and
`now + 50,000,000 s + (T mod 1000) ms` otherwise; the delay added is at most 50,000,001
seconds and the deadline is not earlier than `now + min(T, 50,000,000 s)`. -/
theorem condition_timedWait_deadline (os : Os) (hos : os ≠ Os.SOLARIS) (now : timeval)
    (osWait : WaitCall → Int) (T : Nat) (hT : 0 < T) (hT63 : T < 2 ^ 63)
    (husec : 0 ≤ now.tv_usec ∧ now.tv_usec < 1000000)
    (hsec : -2 ^ 63 ≤ now.tv_sec ∧ now.tv_sec + 50000001 < 2 ^ 63) :
    ∃ abstime,
      (condition_timedWait os now osWait T).2.filter WaitCall.isWait
        = [WaitCall.pthread_cond_timedwait abstime] ∧
      0 ≤ abstime.tv_nsec ∧ abstime.tv_nsec < 1000000000 ∧
      (T / 1000 ≤ 50000000 → abstime.nanos = now.nanos + (T : Int) * 1000000) ∧
      (50000000 < T / 1000 →
        abstime.nanos = now.nanos + 50000000 * 1000000000 + ((T % 1000 : Nat) : Int) * 1000000) ∧
      abstime.nanos - now.nanos ≤ 50000001 * 1000000000 ∧
      now.nanos + min ((T : Int) * 1000000) (50000000 * 1000000000) ≤ abstime.nanos := by
  have hj : toJlong T = (T : Int) := wrapLong_eq _ (by omega) (by omega)
  have hcall : timedWaitCall os now T
      = WaitCall.pthread_cond_timedwait (compute_abstime now (T : Int)) := by
    cases os
    · simp [timedWaitCall, hj]
    · simp [timedWaitCall, hj]
    · exact absurd rfl hos
  obtain ⟨h1, h2, h3⟩ := compute_abstime_spec now (T : Int) (by omega) husec hsec
  have hl : ∀ e, (WaitCall.log_unexpected_error e).isWait = false := fun _ => rfl
  have hw : ∀ t, (WaitCall.pthread_cond_timedwait t).isWait = true := fun _ => rfl
  refine ⟨compute_abstime now (T : Int), ?_, h1, h2, ?_, ?_, ?_, ?_⟩
  · unfold condition_timedWait
    simp only [gt_iff_lt, hT, if_true, hcall]
    split_ifs <;> simp [List.filter, hw, hl]
  · intro hle
    rw [h3]
    have : ¬ ((T : Int) / 1000 > 50000000) := by omega
    rw [if_neg this]
    omega
  · intro hgt
    rw [h3]
    have : (T : Int) / 1000 > 50000000 := by omega
    rw [if_pos this]
    omega
  · rw [h3]
    split_ifs <;> omega
  · rw [h3]
    split_ifs <;> omega

/-- Witness of C14 (as amended): a timeout of 1500 ms at the time 1000 s + 999,999 µs on
Linux; the deadline is 1002 s + 499,999,000 ns. -/
theorem condition_timedWait_deadline_witness :
    ∃ abstime,
      (condition_timedWait Os.LINUX ⟨1000, 999999⟩ (fun _ => 110) 1500).2.filter WaitCall.isWait
        = [WaitCall.pthread_cond_timedwait abstime] ∧
      abstime.nanos = (⟨1000, 999999⟩ : timeval).nanos + (1500 : Nat) * 1000000 := by
  obtain ⟨abstime, h1, _, _, h4, _⟩ :=
    condition_timedWait_deadline Os.LINUX (by decide) ⟨1000, 999999⟩ (fun _ => 110) 1500
      (by decide) (by decide) (by decide) (by decide)
  exact ⟨abstime, h1, h4 (by decide)⟩

/-- C14 (as stated) fails: the timeout `T = 2^63` ms is an unsigned 64 bit value above 0 with
`T / 1000 > 50,000,000`, and at the time 1000 s the deadline that `condition_timedWait`
passes to `pthread_cond_timedwait` is 1000 s, the time `now` itself, not
`now + 50,000,000 s + 808 ms`: converted to the `jlong` parameter of `compute_abstime` the
timeout is negative and is replaced by 0. -/
theorem condition_timedWait_deadline_huge_timeout :
    (0 < 2 ^ 63 ∧ 2 ^ 63 < 2 ^ 64 ∧ 50000000 < 2 ^ 63 / 1000 ∧ 2 ^ 63 % 1000 = 808) ∧
    condition_timedWait Os.LINUX ⟨1000, 0⟩ (fun _ => 110) (2 ^ 63)
      = (true, [WaitCall.pthread_cond_timedwait ⟨1000, 0⟩]) ∧
    (⟨1000, 0⟩ : timespec).nanos = (⟨1000, 0⟩ : timeval).nanos ∧
    (⟨1000, 0⟩ : timespec).nanos
      < (⟨1000, 0⟩ : timeval).nanos + min ((2 ^ 63 : Int) * 1000000) (50000000 * 1000000000) := by
  have h1 : toJlong 9223372036854775808 = -9223372036854775808 := by
    norm_num [toJlong, wrapLong]
  have h2 : compute_abstime ⟨1000, 0⟩ (-9223372036854775808) = ⟨1000, 0⟩ := by
    norm_num [compute_abstime, wrapLong]
  refine ⟨by norm_num, ?_, by decide, ?_⟩
  · simp [condition_timedWait, timedWaitCall, h1, h2, timedOutCode]
  · norm_num [timespec.nanos, timeval.nanos]

/-! ## `teleProcess_jniGatherThread` -/

theorem toJint_wordOfJint (v : Int) (h1 : -2 ^ 31 ≤ v) (h2 : v < 2 ^ 31) :
    toJint (wordOfJint v) = v := by
  unfold toJint wordOfJint
  have h3 : 0 ≤ v % 2 ^ 64 := Int.emod_nonneg _ (by norm_num)
  generalize hw : (v % 2 ^ 64).toNat = w
  have hw2 : (w : Int) = v % 2 ^ 64 := by rw [← hw]; exact Int.toNat_of_nonneg h3
  split_ifs <;> omega

theorem synthesized_id (localHandle : Int) :
    toJint (wordOfJint (if wrapJint localHandle < 0 then wrapJint localHandle
      else wrapJint (-wrapJint localHandle))) ≤ 0 ∧
    (toJint (wordOfJint (if wrapJint localHandle < 0 then wrapJint localHandle
      else wrapJint (-wrapJint localHandle))) < 0 ↔ localHandle % 2 ^ 32 ≠ 0) := by
  have hr : -2 ^ 31 ≤ wrapJint localHandle ∧ wrapJint localHandle < 2 ^ 31 := by
    unfold wrapJint
    omega
  have hz : wrapJint localHandle = 0 ↔ localHandle % 2 ^ 32 = 0 := by
    unfold wrapJint
    omega
  generalize wrapJint localHandle = j at hr hz
  by_cases hj : j < 0
  · rw [if_pos hj, toJint_wordOfJint j hr.1 hr.2]
    omega
  · have hn : wrapJint (-j) = -j := by
      unfold wrapJint
      omega
    rw [if_neg hj, hn, toJint_wordOfJint (-j) (by omega) (by omega)]
    omega

/-- C16, the code at the failing input: for the local handle `2^32`, whose low 32 bits are
zero, the block that `teleProcess_jniGatherThread` synthesizes for `tla = 0` is reported
with the id 0, which is not negative.  For every local handle the other block-derived
fields are zero, the id is never positive, and it is negative exactly when the low 32 bits
of the local handle are not all zero. -/
theorem teleProcess_jniGatherThread_zero_id :
    (teleProcess_jniGatherThread exLayout (fun _ => []) (fun _ => ⟨0, 0, 0, 0, 0, 0⟩) 88
      4294967296 1 2 0).id = 0 ∧
    ∀ (localTla : Address → List Nat) (localNtl : Address → NativeThreadLocalsStruct)
      (noNtl : Address) (localHandle state instructionPointer : Int),
      (teleProcess_jniGatherThread exLayout localTla localNtl noNtl localHandle state
        instructionPointer 0).handle = 0 ∧
      (teleProcess_jniGatherThread exLayout localTla localNtl noNtl localHandle state
        instructionPointer 0).stackBase = 0 ∧
      (teleProcess_jniGatherThread exLayout localTla localNtl noNtl localHandle state
        instructionPointer 0).stackSize = 0 ∧
      (teleProcess_jniGatherThread exLayout localTla localNtl noNtl localHandle state
        instructionPointer 0).tlBlock = 0 ∧
      (teleProcess_jniGatherThread exLayout localTla localNtl noNtl localHandle state
        instructionPointer 0).tlBlockSize = 0 ∧
      (teleProcess_jniGatherThread exLayout localTla localNtl noNtl localHandle state
        instructionPointer 0).id ≤ 0 ∧
      ((teleProcess_jniGatherThread exLayout localTla localNtl noNtl localHandle state
        instructionPointer 0).id < 0 ↔ localHandle % 2 ^ 32 ≠ 0) := by
  refine ⟨by decide, ?_⟩
  intro localTla localNtl noNtl localHandle state instructionPointer
  have hid : (teleProcess_jniGatherThread exLayout localTla localNtl noNtl localHandle state
      instructionPointer 0).id
      = toJint (wordOfJint (if wrapJint localHandle < 0 then wrapJint localHandle
          else wrapJint (-wrapJint localHandle))) := by
    simp [teleProcess_jniGatherThread, exLayout, tla_load, tla_store, List.replicate]
  refine ⟨rfl, rfl, rfl, rfl, rfl, ?_, ?_⟩
  · rw [hid]
    exact (synthesized_id localHandle).1
  · rw [hid]
    exact (synthesized_id localHandle).2

/-! ## `thread_detachCurrent` -/

/-- C17: whatever `threadLocalsBlock_destroy` does to the registry, `thread_detachCurrent`
on a thread that has no current metadata block (`threadLocalsBlock_current()` is 0)
returns `JNI_OK` and leaves the whole state as it was: no block is destroyed, the
current-block pointer and the registry are unchanged.  On a thread that has a metadata
block it returns `JNI_OK` and afterwards the thread's current-block pointer is 0, so that
a second `thread_detachCurrent` changes nothing. -/
theorem thread_detachCurrent_noop (registry : RegistryEffect) (nativeThread : Address)
    (st : VM) :
    (threadLocalsBlock_current st nativeThread = 0 →
      thread_detachCurrent registry nativeThread st = (JNI_OK, st)) ∧
    (threadLocalsBlock_current st nativeThread ≠ 0 →
      (thread_detachCurrent registry nativeThread st).1 = JNI_OK ∧
      threadLocalsBlock_current (thread_detachCurrent registry nativeThread st).2 nativeThread
        = 0 ∧
      thread_detachCurrent registry nativeThread (thread_detachCurrent registry nativeThread st).2
        = (JNI_OK, (thread_detachCurrent registry nativeThread st).2)) := by
  have part1 : ∀ s : VM, threadLocalsBlock_current s nativeThread = 0 →
      thread_detachCurrent registry nativeThread s = (JNI_OK, s) := by
    intro s h
    unfold thread_detachCurrent
    simp only [h, if_true]
  refine ⟨part1 st, ?_⟩
  intro h
  have h0 : threadLocalsBlock_current (thread_detachCurrent registry nativeThread st).2
      nativeThread = 0 := by
    unfold thread_detachCurrent
    simp only [if_neg h]
    simp [threadLocalsBlock_current, threadLocalsBlock_destroy, threadLocalsBlock_setCurrent]
  refine ⟨?_, h0, part1 _ h0⟩
  unfold thread_detachCurrent
  simp only [if_neg h]

/-- Witness of C17: the thread 300 has no block in `twoThreadVM`; the thread 200 has the
block 8192, the head of the list, and is detached with a `threadLocalsBlock_destroy` that
keeps the registry and with one that unlinks the head. -/
theorem thread_detachCurrent_noop_witness :
    thread_detachCurrent registryKept 300 twoThreadVM = (JNI_OK, twoThreadVM) ∧
    (threadLocalsBlock_current (thread_detachCurrent registryKept 200 twoThreadVM).2 200 = 0 ∧
      thread_detachCurrent registryKept 200 (thread_detachCurrent registryKept 200 twoThreadVM).2
        = (JNI_OK, (thread_detachCurrent registryKept 200 twoThreadVM).2)) ∧
    (threadLocalsBlock_current
        (thread_detachCurrent registryHeadUnlinked 200 twoThreadVM).2 200 = 0 ∧
      thread_detachCurrent registryHeadUnlinked 200
          (thread_detachCurrent registryHeadUnlinked 200 twoThreadVM).2
        = (JNI_OK, (thread_detachCurrent registryHeadUnlinked 200 twoThreadVM).2)) :=
  ⟨(thread_detachCurrent_noop registryKept 300 twoThreadVM).1 (by decide),
    ((thread_detachCurrent_noop registryKept 200 twoThreadVM).2 (by decide)).2,
    ((thread_detachCurrent_noop registryHeadUnlinked 200 twoThreadVM).2 (by decide)).2⟩

/-! ## `teleProcess_read`, `teleProcess_write` -/

theorem storeBytes_length (dst : List Nat) (start : Nat) (src : List Nat)
    (h : start + src.length ≤ dst.length) : (storeBytes dst start src).length = dst.length := by
  simp only [storeBytes, List.length_append, List.length_take, List.length_drop]
  omega

theorem storeBytes_take (dst : List Nat) (start : Nat) (src : List Nat)
    (h : start ≤ dst.length) : (storeBytes dst start src).take start = dst.take start := by
  unfold storeBytes
  rw [List.append_assoc, List.take_append_of_le_length (by simp [h])]
  rw [List.take_take, min_self]

theorem storeBytes_drop_take (dst : List Nat) (start : Nat) (src : List Nat)
    (h : start ≤ dst.length) :
    ((storeBytes dst start src).drop start).take src.length = src := by
  unfold storeBytes
  have hl : (dst.take start).length = start := by simp [h]
  rw [List.append_assoc, List.drop_append_of_le_length (by rw [hl])]
  rw [List.drop_of_length_le (by rw [hl]), List.nil_append]
  simp

theorem storeBytes_drop (dst : List Nat) (start : Nat) (src : List Nat)
    (h : start ≤ dst.length) :
    (storeBytes dst start src).drop (start + src.length) = dst.drop (start + src.length) := by
  unfold storeBytes
  have hl : (dst.take start ++ src).length = start + src.length := by simp [h]
  rw [← hl, List.drop_left]

theorem SetByteArrayRegion_inside (array : List Nat) (start len : Nat) (buf : List Nat)
    (h : start + len ≤ array.length) :
    SetByteArrayRegion array (start : Int) (len : Int) buf
      = storeBytes array start (buf.take len) := by
  unfold SetByteArrayRegion
  rw [if_pos ⟨by omega, by omega, by omega⟩]
  simp

/-- C18 (as amended): `teleProcess_read` returns -1 without a call of `readProcessMemory`,
and leaves the destination as it is, when a direct buffer has no address and when the
intermediate buffer for a byte array cannot be allocated; otherwise it returns the result
of `readProcessMemory` unchanged.  For a byte-array destination with a result `n > 0`, a
buffer that holds the `n` bytes read, and a region `dst[offset .. offset+n)` that lies
inside the array (`0 <= offset` and `offset + n` at most the length of the array), exactly
these `n` bytes are stored in that region and the rest of the array is unchanged; with a
result `n <= 0` the destination is left unchanged. -/
theorem teleProcess_read_result {σ : Type} (E : TeleEnv σ) (ph : σ) (src : Nat) (dst : JBuffer)
    (isDirectByteBuffer : Bool) (offset length : Int) :
    (isDirectByteBuffer = true → dst.directAddress = 0 →
      teleProcess_read E ph src dst isDirectByteBuffer offset length
        = (-1, dst, [TeleCall.GetDirectBufferAddress, TeleCall.log_println])) ∧
    (isDirectByteBuffer = false → arrayBuffer E (toSizeT length) = none →
      teleProcess_read E ph src dst isDirectByteBuffer offset length
        = (-1, dst, [TeleCall.malloc (toSizeT length), TeleCall.log_println])) ∧
    (isDirectByteBuffer = true → dst.directAddress ≠ 0 →
      (teleProcess_read E ph src dst isDirectByteBuffer offset length).1
        = (E.readProcessMemory ph src (dst.bytes.drop offset.toNat) (toSizeT length)).1) ∧
    (isDirectByteBuffer = false → ∀ buffer, arrayBuffer E (toSizeT length) = some buffer →
      (teleProcess_read E ph src dst isDirectByteBuffer offset length).1
        = (E.readProcessMemory ph src buffer (toSizeT length)).1 ∧
      ((E.readProcessMemory ph src buffer (toSizeT length)).1 ≤ 0 →
        (teleProcess_read E ph src dst isDirectByteBuffer offset length).2.1 = dst) ∧
      (∀ n start : Nat, 0 < n →
        (E.readProcessMemory ph src buffer (toSizeT length)).1 = (n : Int) →
        offset = (start : Int) → start + n ≤ dst.bytes.length →
        n ≤ (E.readProcessMemory ph src buffer (toSizeT length)).2.length →
        (teleProcess_read E ph src dst isDirectByteBuffer offset length).2.1.bytes.length
          = dst.bytes.length ∧
        ((teleProcess_read E ph src dst isDirectByteBuffer offset length).2.1.bytes.drop
            start).take n
          = (E.readProcessMemory ph src buffer (toSizeT length)).2.take n ∧
        (teleProcess_read E ph src dst isDirectByteBuffer offset length).2.1.bytes.take start
          = dst.bytes.take start ∧
        (teleProcess_read E ph src dst isDirectByteBuffer offset length).2.1.bytes.drop
            (start + n)
          = dst.bytes.drop (start + n))) := by
  refine ⟨?_, ?_, ?_, ?_⟩
  · intro hd h0
    simp [teleProcess_read, hd, h0]
  · intro hd hb
    unfold arrayBuffer at hb
    by_cases hs : toSizeT length > wordSize
    · rw [if_pos hs] at hb
      simp [teleProcess_read, hd, hs, hb]
    · rw [if_neg hs] at hb
      cases hb
  · intro hd h0
    simp [teleProcess_read, hd, h0]
  · intro hd buffer hb
    have key : teleProcess_read E ph src dst isDirectByteBuffer offset length
        = if (E.readProcessMemory ph src buffer (toSizeT length)).1 > 0 then
            ((E.readProcessMemory ph src buffer (toSizeT length)).1,
              JBuffer.mk dst.directAddress (SetByteArrayRegion dst.bytes offset
                  (E.readProcessMemory ph src buffer (toSizeT length)).1
                  (E.readProcessMemory ph src buffer (toSizeT length)).2),
              (teleProcess_read E ph src dst isDirectByteBuffer offset length).2.2)
          else
            ((E.readProcessMemory ph src buffer (toSizeT length)).1, dst,
              (teleProcess_read E ph src dst isDirectByteBuffer offset length).2.2) := by
      unfold arrayBuffer at hb
      by_cases hs : toSizeT length > wordSize
      · rw [if_pos hs] at hb
        simp only [teleProcess_read, hd, hs, hb, if_true, Bool.false_eq_true, if_false]
        split_ifs <;> rfl
      · rw [if_neg hs] at hb
        cases hb
        simp only [teleProcess_read, hd, hs, if_false, Bool.false_eq_true]
        split_ifs <;> rfl
    refine ⟨?_, ?_, ?_⟩
    · rw [key]
      split_ifs <;> rfl
    · intro hle
      rw [key, if_neg (not_lt.mpr hle)]
    · intro n start hn hres hoff hin hbuf
      have hpos : (E.readProcessMemory ph src buffer (toSizeT length)).1 > 0 := by
        rw [hres]
        omega
      have hbytes : (teleProcess_read E ph src dst isDirectByteBuffer offset length).2.1.bytes
          = storeBytes dst.bytes start
              ((E.readProcessMemory ph src buffer (toSizeT length)).2.take n) := by
        rw [key, if_pos hpos]
        simp only
        rw [hres, hoff, SetByteArrayRegion_inside _ _ _ _ hin]
      have hlen : ((E.readProcessMemory ph src buffer (toSizeT length)).2.take n).length = n := by
        rw [List.length_take]
        omega
      rw [hbytes]
      refine ⟨?_, ?_, ?_, ?_⟩
      · exact storeBytes_length _ _ _ (by rw [hlen]; exact hin)
      · have := storeBytes_drop_take dst.bytes start
          ((E.readProcessMemory ph src buffer (toSizeT length)).2.take n) (by omega)
        rw [hlen] at this
        exact this
      · exact storeBytes_take _ _ _ (by omega)
      · have := storeBytes_drop dst.bytes start
          ((E.readProcessMemory ph src buffer (toSizeT length)).2.take n) (by omega)
        rw [hlen] at this
        exact this

theorem toSizeT_natCast (n : Nat) (h : n < 2 ^ 31) : toSizeT (n : Int) = n := by
  unfold toSizeT
  omega

theorem GetByteArrayRegion_inside (array : List Nat) (start len : Nat) (buf : List Nat)
    (h : start + len ≤ array.length) :
    GetByteArrayRegion array (start : Int) (len : Int) buf
      = some (storeBytes buf 0 ((array.drop start).take len)) := by
  unfold GetByteArrayRegion
  rw [if_pos ⟨by omega, by omega, by omega⟩]
  simp

theorem storeBytes_zero_take (buf src : List Nat) :
    (storeBytes buf 0 src).take src.length = src := by
  simp [storeBytes]

theorem storeBytes_zero_length (buf src : List Nat) :
    src.length ≤ (storeBytes buf 0 src).length := by
  simp [storeBytes]

theorem load_after_store (pm : ProcessBytes) (a : Nat) (buf : List Nat) (n : Nat)
    (h : n ≤ buf.length) :
    (List.range n).map (fun i => (storeProcessBytes pm a buf n).2 (a + i)) = buf.take n := by
  apply List.ext_getElem
  · simp [h]
  · intro i h1 h2
    simp only [List.length_map, List.length_range] at h1
    simp only [List.getElem_map, List.getElem_range, storeProcessBytes, List.getElem_take]
    rw [if_pos ⟨by omega, by omega⟩]
    have : a + i - a = i := by omega
    rw [this, List.getD_eq_getElem _ _ (by omega)]

theorem region_inside (bytes B : List Nat) (start n : Nat) (hB : B.length = n)
    (h : (bytes.drop start).take n = B) (hn : 0 < n) : start + n ≤ bytes.length := by
  have := congrArg List.length h
  rw [List.length_take, List.length_drop, hB] at this
  omega

theorem teleProcess_write_stores (malloc : Nat → Option (List Nat)) (bufferWord : List Nat)
    (pm : ProcessBytes) (address : Nat) (B : List Nat) (n : Nat) (hn0 : 0 < n)
    (hn : n < 2 ^ 31) (hB : B.length = n) (srcBuf : JBuffer) (srcDirect : Bool) (offS : Nat)
    (hsrc : (srcBuf.bytes.drop offS).take n = B)
    (hsd : srcDirect = true → srcBuf.directAddress ≠ 0)
    (hmalloc : srcDirect = false → wordSize < n → (malloc n).isSome) :
    (teleProcess_write (memoryEnv malloc bufferWord) pm address srcBuf srcDirect
      (offS : Int) (n : Int)).1 = (n : Int) ∧
    (List.range n).map (fun i =>
      (teleProcess_write (memoryEnv malloc bufferWord) pm address srcBuf srcDirect
        (offS : Int) (n : Int)).2.1 (address + i)) = B := by
  have hin := region_inside _ _ _ _ hB hsrc hn0
  have hsize := toSizeT_natCast n hn
  cases srcDirect with
  | true =>
    have hd := hsd rfl
    have hlen : n ≤ (srcBuf.bytes.drop offS).length := by
      rw [List.length_drop]
      omega
    simp only [teleProcess_write, if_true, hd, if_false, hsize, memoryEnv, Int.toNat_ofNat]
    exact ⟨rfl, by rw [load_after_store _ _ _ _ hlen, hsrc]⟩
  | false =>
    by_cases hs : n > wordSize
    · obtain ⟨junk, hj⟩ := Option.isSome_iff_exists.mp (hmalloc rfl hs)
      simp only [teleProcess_write, Bool.false_eq_true, if_false, hsize, hs, if_true, memoryEnv,
        hj, GetByteArrayRegion_inside _ _ _ junk hin, hsrc]
      refine ⟨rfl, ?_⟩
      rw [load_after_store _ _ _ _ (hB ▸ storeBytes_zero_length junk B)]
      exact hB ▸ storeBytes_zero_take junk B
    · simp only [teleProcess_write, Bool.false_eq_true, if_false, hsize, hs, memoryEnv,
        GetByteArrayRegion_inside _ _ _ bufferWord hin, hsrc]
      refine ⟨rfl, ?_⟩
      rw [load_after_store _ _ _ _ (hB ▸ storeBytes_zero_length bufferWord B)]
      exact hB ▸ storeBytes_zero_take bufferWord B

theorem teleProcess_read_loads (malloc : Nat → Option (List Nat)) (bufferWord : List Nat)
    (pm : ProcessBytes) (address : Nat) (B : List Nat) (n : Nat) (hn0 : 0 < n)
    (hn : n < 2 ^ 31) (hB : B.length = n)
    (hpm : (List.range n).map (fun i => pm (address + i)) = B)
    (dstBuf : JBuffer) (dstDirect : Bool) (offD : Nat) (hdst : offD + n ≤ dstBuf.bytes.length)
    (hdd : dstDirect = true → dstBuf.directAddress ≠ 0)
    (hmalloc : dstDirect = false → wordSize < n → (malloc n).isSome) :
    (teleProcess_read (memoryEnv malloc bufferWord) pm address dstBuf dstDirect
      (offD : Int) (n : Int)).1 = (n : Int) ∧
    (teleProcess_read (memoryEnv malloc bufferWord) pm address dstBuf dstDirect
      (offD : Int) (n : Int)).2.1.bytes = storeBytes dstBuf.bytes offD B := by
  have hsize := toSizeT_natCast n hn
  have htake : ∀ buf : List Nat, (storeBytes buf 0 B).take n = B := by
    intro buf
    exact hB ▸ storeBytes_zero_take buf B
  cases dstDirect with
  | true =>
    have hd := hdd rfl
    simp only [teleProcess_read, if_true, hd, if_false, hsize, memoryEnv, loadBytes, hpm,
      Int.toNat_ofNat]
    refine ⟨trivial, ?_⟩
    simp [storeBytes, hB, Nat.add_comm]
  | false =>
    have hpos : ((n : Nat) : Int) > 0 := by omega
    by_cases hs : n > wordSize
    · obtain ⟨junk, hj⟩ := Option.isSome_iff_exists.mp (hmalloc rfl hs)
      simp only [teleProcess_read, Bool.false_eq_true, if_false, hsize, hs, if_true, memoryEnv,
        hj, loadBytes, hpm, hpos, SetByteArrayRegion_inside _ _ _ _ hdst, htake]
      exact ⟨trivial, trivial⟩
    · simp only [teleProcess_read, Bool.false_eq_true, if_false, hsize, hs, memoryEnv,
        loadBytes, hpm, hpos, if_true, SetByteArrayRegion_inside _ _ _ _ hdst, htake]
      exact ⟨trivial, trivial⟩

/-- C15 (as amended): over a process memory in which `writeProcessMemory` stores and
`readProcessMemory` loads the given bytes, for every remote address, every byte buffer `B`
of length `n > 0` (a `jint`) held by the source at its offset, every destination with room
for `n` bytes at its offset, and both buffer kinds on either side (a direct buffer with an
address, or a byte array), provided `malloc` gives the intermediate buffer that a byte
array of more than a word's worth of bytes needs: `teleProcess_write` returns `n`, and
`teleProcess_read` of `n` bytes from the same address then returns `n` and delivers exactly
`B` to the destination at its offset, the rest of the destination unchanged. -/
theorem teleProcess_write_read_roundtrip (malloc : Nat → Option (List Nat))
    (bufferWord : List Nat) (pm : ProcessBytes) (address : Nat) (B : List Nat) (n : Nat)
    (hn0 : 0 < n) (hn : n < 2 ^ 31) (hB : B.length = n)
    (srcBuf : JBuffer) (srcDirect : Bool) (offS : Nat)
    (hsrc : (srcBuf.bytes.drop offS).take n = B)
    (hsd : srcDirect = true → srcBuf.directAddress ≠ 0)
    (dstBuf : JBuffer) (dstDirect : Bool) (offD : Nat)
    (hdst : offD + n ≤ dstBuf.bytes.length)
    (hdd : dstDirect = true → dstBuf.directAddress ≠ 0)
    (hmalloc : (srcDirect = false ∨ dstDirect = false) → wordSize < n → (malloc n).isSome) :
    (teleProcess_write (memoryEnv malloc bufferWord) pm address srcBuf srcDirect
      (offS : Int) (n : Int)).1 = (n : Int) ∧
    (teleProcess_read (memoryEnv malloc bufferWord)
      (teleProcess_write (memoryEnv malloc bufferWord) pm address srcBuf srcDirect
        (offS : Int) (n : Int)).2.1
      address dstBuf dstDirect (offD : Int) (n : Int)).1 = (n : Int) ∧
    ((teleProcess_read (memoryEnv malloc bufferWord)
      (teleProcess_write (memoryEnv malloc bufferWord) pm address srcBuf srcDirect
        (offS : Int) (n : Int)).2.1
      address dstBuf dstDirect (offD : Int) (n : Int)).2.1.bytes.drop offD).take n = B ∧
    (teleProcess_read (memoryEnv malloc bufferWord)
      (teleProcess_write (memoryEnv malloc bufferWord) pm address srcBuf srcDirect
        (offS : Int) (n : Int)).2.1
      address dstBuf dstDirect (offD : Int) (n : Int)).2.1.bytes.take offD
        = dstBuf.bytes.take offD ∧
    (teleProcess_read (memoryEnv malloc bufferWord)
      (teleProcess_write (memoryEnv malloc bufferWord) pm address srcBuf srcDirect
        (offS : Int) (n : Int)).2.1
      address dstBuf dstDirect (offD : Int) (n : Int)).2.1.bytes.drop (offD + n)
        = dstBuf.bytes.drop (offD + n) := by
  obtain ⟨hw1, hw2⟩ := teleProcess_write_stores malloc bufferWord pm address B n hn0 hn hB
    srcBuf srcDirect offS hsrc hsd (fun h => hmalloc (Or.inl h))
  obtain ⟨hr1, hr2⟩ := teleProcess_read_loads malloc bufferWord _ address B n hn0 hn hB hw2
    dstBuf dstDirect offD hdst hdd (fun h => hmalloc (Or.inr h))
  refine ⟨hw1, hr1, ?_, ?_, ?_⟩
  · rw [hr2]
    exact hB ▸ storeBytes_drop_take dstBuf.bytes offD B (by omega)
  · rw [hr2]
    exact storeBytes_take _ _ _ (by omega)
  · rw [hr2]
    exact hB ▸ storeBytes_drop dstBuf.bytes offD B (by omega)

/-- Witness of C15 (as amended): the nine bytes 1 to 9, taken from a byte array at the
offset 2, are written to the address 4096 and read back into a direct buffer at the
offset 1. -/
theorem teleProcess_write_read_roundtrip_witness :
    (teleProcess_write exampleEnv exampleBytes 4096 ⟨0, 0 :: 0 :: nineBytes⟩ false 2 9).1 = 9 ∧
    (teleProcess_read exampleEnv
      (teleProcess_write exampleEnv exampleBytes 4096 ⟨0, 0 :: 0 :: nineBytes⟩ false 2 9).2.1
      4096 ⟨555, List.replicate 12 0⟩ true 1 9).1 = 9 ∧
    ((teleProcess_read exampleEnv
      (teleProcess_write exampleEnv exampleBytes 4096 ⟨0, 0 :: 0 :: nineBytes⟩ false 2 9).2.1
      4096 ⟨555, List.replicate 12 0⟩ true 1 9).2.1.bytes.drop 1).take 9 = nineBytes :=
  ⟨(teleProcess_write_read_roundtrip mallocOk (List.replicate 8 85) exampleBytes 4096 nineBytes
      9 (by decide) (by decide) (by decide) ⟨0, 0 :: 0 :: nineBytes⟩ false 2 (by decide)
      (by decide) ⟨555, List.replicate 12 0⟩ true 1 (by decide) (by decide) (by decide)).1,
    (teleProcess_write_read_roundtrip mallocOk (List.replicate 8 85) exampleBytes 4096 nineBytes
      9 (by decide) (by decide) (by decide) ⟨0, 0 :: 0 :: nineBytes⟩ false 2 (by decide)
      (by decide) ⟨555, List.replicate 12 0⟩ true 1 (by decide) (by decide) (by decide)).2.1,
    (teleProcess_write_read_roundtrip mallocOk (List.replicate 8 85) exampleBytes 4096 nineBytes
      9 (by decide) (by decide) (by decide) ⟨0, 0 :: 0 :: nineBytes⟩ false 2 (by decide)
      (by decide) ⟨555, List.replicate 12 0⟩ true 1 (by decide) (by decide) (by decide)).2.2.1⟩

/-- C15 (as stated) fails: over the process memory that stores and loads the given bytes,
with the nine bytes 1 to 9 in a byte array (more than a word's worth), `malloc` returns
a null pointer and `teleProcess_write` returns -1, not 9; `teleProcess_read` of nine bytes
into a byte array returns -1 as well and delivers nothing. -/
theorem teleProcess_write_read_malloc_null :
    nineBytes.length = 9 ∧
    (teleProcess_write noMemoryEnv exampleBytes 4096 ⟨0, nineBytes⟩ false 0 9).1 = -1 ∧
    (teleProcess_read noMemoryEnv
      (teleProcess_write noMemoryEnv exampleBytes 4096 ⟨0, nineBytes⟩ false 0 9).2.1
      4096 ⟨0, List.replicate 9 0⟩ false 0 9).1 = -1 ∧
    (teleProcess_read noMemoryEnv
      (teleProcess_write noMemoryEnv exampleBytes 4096 ⟨0, nineBytes⟩ false 0 9).2.1
      4096 ⟨0, List.replicate 9 0⟩ false 0 9).2.1.bytes = List.replicate 9 0 := by
  refine ⟨by decide, by decide, by decide, by decide⟩

/-- C18 (as stated) fails: a read of nine bytes from the address 4097 into a byte array of
twelve bytes at the offset 5 has the result 9, and the nine bytes read, 1 to 9, are in the
buffer; the region `dst[5 .. 14)` does not lie inside the array, `SetByteArrayRegion`
stores nothing, and `teleProcess_read` returns 9 with the array as it was. -/
theorem teleProcess_read_region_outside_array :
    (exampleEnv.readProcessMemory exampleBytes 4097 (List.replicate 9 170) 9).1 = 9 ∧
    (exampleEnv.readProcessMemory exampleBytes 4097 (List.replicate 9 170) 9).2.take 9
      = nineBytes ∧
    (teleProcess_read exampleEnv exampleBytes 4097 ⟨0, List.replicate 12 0⟩ false 5 9).1 = 9 ∧
    (teleProcess_read exampleEnv exampleBytes 4097 ⟨0, List.replicate 12 0⟩ false 5 9).2.1.bytes
      = List.replicate 12 0 ∧
    (teleProcess_read exampleEnv exampleBytes 4097 ⟨0, List.replicate 12 0⟩ false 5 9).2.2
      = [TeleCall.malloc 9, TeleCall.readProcessMemory 4097 9,
          TeleCall.SetByteArrayRegion 5 9, TeleCall.free] := by
  refine ⟨by decide, by decide, by decide, by decide, by decide⟩

/-- Witness of C18: a direct buffer without an address gives -1 and no call of
`readProcessMemory`; a read of nine bytes from the address 4096 into a byte array of
twelve bytes at the offset 1 stores the nine bytes read there and leaves the first byte
and the last two as they were. -/
theorem teleProcess_read_result_witness :
    teleProcess_read exampleEnv exampleBytes 4096 ⟨0, List.replicate 12 0⟩ true 1 9
      = (-1, ⟨0, List.replicate 12 0⟩, [TeleCall.GetDirectBufferAddress, TeleCall.log_println]) ∧
    ((teleProcess_read exampleEnv exampleBytes 4096 ⟨0, List.replicate 12 0⟩ false 1 9).1 = 9 ∧
      (teleProcess_read exampleEnv exampleBytes 4096 ⟨0, List.replicate 12 0⟩ false 1
        9).2.1.bytes.length = 12 ∧
      ((teleProcess_read exampleEnv exampleBytes 4096 ⟨0, List.replicate 12 0⟩ false 1
        9).2.1.bytes.drop 1).take 9 = [0, 1, 2, 3, 4, 5, 6, 7, 8] ∧
      (teleProcess_read exampleEnv exampleBytes 4096 ⟨0, List.replicate 12 0⟩ false 1
        9).2.1.bytes.take 1 = [0] ∧
      (teleProcess_read exampleEnv exampleBytes 4096 ⟨0, List.replicate 12 0⟩ false 1
        9).2.1.bytes.drop (1 + 9) = [0, 0]) :=
  ⟨(teleProcess_read_result exampleEnv exampleBytes 4096 ⟨0, List.replicate 12 0⟩ true 1 9).1
      rfl rfl,
    ((teleProcess_read_result exampleEnv exampleBytes 4096 ⟨0, List.replicate 12 0⟩ false 1
      9).2.2.2 rfl (List.replicate 9 170) (by decide)).1.trans (by decide),
    ((teleProcess_read_result exampleEnv exampleBytes 4096 ⟨0, List.replicate 12 0⟩ false 1
      9).2.2.2 rfl (List.replicate 9 170) (by decide)).2.2 9 1 (by decide) (by decide)
      (by decide) (by decide) (by decide)⟩

/-- Witness of C12: on Linux a timed wait of 1500 ms that ends with `ETIMEDOUT` returns
true. -/
theorem condition_timedWait_result_witness :
    (condition_timedWait Os.LINUX ⟨1000, 0⟩ (fun _ => 110) 1500).1 = true := by
  obtain ⟨_, call, _, h, _⟩ :=
    condition_timedWait_result Os.LINUX ⟨1000, 0⟩ (fun _ => 110) 1500
  exact h.mpr (Or.inr ⟨by decide, rfl⟩)

/-- Witness of C13: on Linux a wait that ends with `EINTR` returns false. -/
theorem condition_wait_result_witness :
    (condition_wait Os.LINUX (fun _ => EINTR)).1 = false := by
  obtain ⟨call, _, _, h, _⟩ := condition_wait_result Os.LINUX (fun _ => EINTR)
  exact h rfl

end Maxine
